import Mathlib

/-!
Verification of the cyberWatch measurement / enrichment / topology pipeline.

This file gives a shallow embedding of the pipeline's core operations
(traceroute output parsing, per-hop enrichment bookkeeping, AS-graph
projection, circuit breaker and rate limiter, Pi-hole cursor logic, ASN
metadata upserts, and target bookkeeping) and proves or refutes the spec's
claims about them.  Machine floats are modelled as exact rationals and wall
clock instants as rationals passed explicitly to each operation.
-/

set_option linter.unusedVariables false

attribute [local semireducible] Rat.add Rat.sub Rat.mul Rat.inv

/-! ### Graph builder (`cyberWatch/enrichment/graph_builder.py`) -/

/-- A row returned by `fetch_hops_for_measurement` (`db/pg.py`): the query
selects `hop_number, asn, org_name, country_code, rtt_ms` for hops with a
non-null ASN, ordered by `hop_number`.  We keep `asn` optional because
`_build_edges` re-checks `hop["asn"] is None` itself. -/
structure HopRow where
  hop_number : Nat
  asn : Option Nat
  org_name : Option String
  country_code : Option String
  rtt_ms : Option ℚ
deriving DecidableEq, Repr

/-- `HopNode` model from `graph_builder.py`. -/
structure HopNode where
  asn : Nat
  org_name : Option String
  country : Option String
  rtt_ms : Option ℚ
deriving DecidableEq, Repr

/-- `EdgeModel` from `graph_builder.py`. -/
structure EdgeModel where
  a : HopNode
  b : HopNode
  observed_at : ℚ
  rtt_ms : Option ℚ
deriving DecidableEq, Repr

/-- `rtt_candidates = [x for x in (prev.rtt_ms, node.rtt_ms) if x is not None]`;
`rtt_value = max(rtt_candidates) if rtt_candidates else None`. -/
def edgeRtt : Option ℚ → Option ℚ → Option ℚ
  | none, none => none
  | some x, none => some x
  | none, some y => some y
  | some x, some y => some (max x y)

/-- Conversion of a hop row with a known ASN to a `HopNode`
(the `node = HopNode(...)` construction in `_build_edges`). -/
def hopNodeOf (h : HopRow) (a : Nat) : HopNode :=
  { asn := a, org_name := h.org_name, country := h.country_code, rtt_ms := h.rtt_ms }

/-- The loop body of `_build_edges`: walk the hops carrying the previous
ASN-bearing node; rows with `asn = None` are skipped; a consecutive pair of
distinct ASNs emits an edge. -/
def buildEdgesAux (observed_at : ℚ) : Option HopNode → List HopRow → List EdgeModel
  | _, [] => []
  | prev, h :: rest =>
    match h.asn with
    | none => buildEdgesAux observed_at prev rest
    | some a =>
      let node := hopNodeOf h a
      match prev with
      | none => buildEdgesAux observed_at (some node) rest
      | some p =>
        if p.asn ≠ node.asn then
          { a := p, b := node, observed_at := observed_at,
            rtt_ms := edgeRtt p.rtt_ms node.rtt_ms } :: buildEdgesAux observed_at (some node) rest
        else
          buildEdgesAux observed_at (some node) rest

/-- `_build_edges(hops, observed_at)`. -/
def buildEdges (hops : List HopRow) (observed_at : ℚ) : List EdgeModel :=
  buildEdgesAux observed_at none hops

/-- Spec-side description of the projection (`spec.md` §4.6): keep the hops
with a non-null ASN in order, and emit one edge for every consecutive pair
with distinct ASNs. -/
def specEnrichedNodes (hops : List HopRow) : List HopNode :=
  hops.filterMap (fun h => h.asn.map (hopNodeOf h))

/-- Consecutive pairs of a list. -/
def consecutivePairs : List HopNode → List (HopNode × HopNode)
  | [] => []
  | [_] => []
  | x :: y :: rest => (x, y) :: consecutivePairs (y :: rest)

/-- Spec-side single-pair rule: a pair of consecutive ASN-bearing hops emits
an edge exactly when the ASNs differ, with `rtt = max` of the non-null RTTs. -/
def specPairEdge (observed_at : ℚ) (pc : HopNode × HopNode) : Option EdgeModel :=
  if pc.1.asn ≠ pc.2.asn then
    some { a := pc.1, b := pc.2, observed_at := observed_at,
           rtt_ms := edgeRtt pc.1.rtt_ms pc.2.rtt_ms }
  else none

/-- Spec-side edge list: for every consecutive pair `(prev, curr)` of
ASN-bearing hops with `prev.asn ≠ curr.asn`, an edge with
`rtt = max` of the non-null RTTs. -/
def specRouteEdges (hops : List HopRow) (observed_at : ℚ) : List EdgeModel :=
  (consecutivePairs (specEnrichedNodes hops)).filterMap (specPairEdge observed_at)

/-! #### Neo4j edge store model (`_merge_edge` / `process_measurement`) -/

/-- Properties of a `ROUTE` relationship in the graph store. -/
structure EdgeStats where
  observed_count : Nat
  min_rtt : Option ℚ
  max_rtt : Option ℚ
  last_seen : ℚ
deriving DecidableEq, Repr

/-- The graph store: an association list from the directed ASN pair
`(a.asn, b.asn)` of a `MERGE (a)-[r:ROUTE]->(b)` to the relationship
properties. -/
abbrev GraphDB := List ((Nat × Nat) × EdgeStats)

/-- Key lookup in the store (Neo4j `MERGE` matches on the key pair). -/
def graphFind (db : GraphDB) (k : Nat × Nat) : Option EdgeStats :=
  (db.find? (fun e => e.1 = k)).map (·.2)

/-- Replace the value stored at an existing key. -/
def graphSet (db : GraphDB) (k : Nat × Nat) (v : EdgeStats) : GraphDB :=
  db.map (fun e => if e.1 = k then (k, v) else e)

/-- `ON MATCH` update of `_merge_edge`:
`observed_count = coalesce(observed_count, 0) + 1`,
`min_rtt = CASE WHEN r.min_rtt IS NULL OR $rtt IS NULL THEN r.min_rtt ELSE LEAST(r.min_rtt, $rtt) END`
(and symmetrically for `max_rtt`), `last_seen = $ts`. -/
def mergeStats (s : EdgeStats) (rtt : Option ℚ) (ts : ℚ) : EdgeStats :=
  { observed_count := s.observed_count + 1
    min_rtt :=
      match s.min_rtt, rtt with
      | some m, some r => some (min m r)
      | m, _ => m
    max_rtt :=
      match s.max_rtt, rtt with
      | some m, some r => some (max m r)
      | m, _ => m
    last_seen := ts }

/-- `_merge_edge(session, edge)`: merge the `ROUTE` relationship keyed on
`(edge.a.asn, edge.b.asn)`; `ON CREATE` sets `observed_count = 1` and
`min_rtt = max_rtt = rtt`. -/
def mergeEdge (db : GraphDB) (edge : EdgeModel) : GraphDB :=
  let k := (edge.a.asn, edge.b.asn)
  match graphFind db k with
  | none =>
    db ++ [(k, { observed_count := 1, min_rtt := edge.rtt_ms,
                 max_rtt := edge.rtt_ms, last_seen := edge.observed_at })]
  | some s => graphSet db k (mergeStats s edge.rtt_ms edge.observed_at)

/-- Canonicalization step of `process_measurement`:
`if a.asn > b.asn: edge = EdgeModel(a=b, b=a, ...)`. -/
def canonEdge (e : EdgeModel) : EdgeModel :=
  if e.a.asn > e.b.asn then
    { a := e.b, b := e.a, observed_at := e.observed_at, rtt_ms := e.rtt_ms }
  else e

/-- The graph-store effect of `process_measurement`: build the edges and merge
each one after canonical ordering.  (When `hops` or `edges` are empty the
loop body never runs, which this fold also models.) -/
def graphProcessMeasurement (db : GraphDB) (hops : List HopRow) (observed_at : ℚ) : GraphDB :=
  (buildEdges hops observed_at).foldl (fun d e => mergeEdge d (canonEdge e)) db

/-- Graph stores reachable by the graph builder: the empty store, extended by
`process_measurement` runs on arbitrary hop lists. -/
inductive GraphReachable : GraphDB → Prop
  | init : GraphReachable []
  | step (db : GraphDB) (hops : List HopRow) (t : ℚ) :
      GraphReachable db → GraphReachable (graphProcessMeasurement db hops t)

/-- Invariant claimed for the edge store: every stored relationship has a
canonically ordered key (`asn_a < asn_b`), `observed_count ≥ 1`, and
`min_rtt ≤ max_rtt` when both are non-null; keys are unique. -/
def GraphInv (db : GraphDB) : Prop :=
  (db.map (·.1)).Nodup ∧
  ∀ e ∈ db, e.1.1 < e.1.2 ∧ 1 ≤ e.2.observed_count ∧
    ∀ m M, e.2.min_rtt = some m → e.2.max_rtt = some M → m ≤ M

/-! ### Circuit breaker and rate limiter (`cyberWatch/enrichment/__init__.py`) -/

/-- `CircuitState` enum. -/
inductive CircuitState
  | closed
  | opened
  | halfOpen
deriving DecidableEq, Repr

/-- The `CircuitBreaker` dataclass: configuration plus internal state.
`time.time()` is modelled by passing the current instant `now : ℚ` to each
method that reads the clock. -/
structure CircuitBreaker where
  failure_threshold : Nat := 5
  recovery_time : ℚ := 60
  half_open_max_calls : Nat := 1
  failures : Nat := 0
  last_failure_time : ℚ := 0
  state : CircuitState := CircuitState.closed
  half_open_calls : Nat := 0
deriving DecidableEq, Repr

/-- `_transition_to_open`. -/
def cbToOpen (b : CircuitBreaker) : CircuitBreaker :=
  { b with state := CircuitState.opened, half_open_calls := 0 }

/-- `_transition_to_half_open`. -/
def cbToHalfOpen (b : CircuitBreaker) : CircuitBreaker :=
  { b with state := CircuitState.halfOpen, half_open_calls := 0 }

/-- `_transition_to_closed`. -/
def cbToClosed (b : CircuitBreaker) : CircuitBreaker :=
  { b with state := CircuitState.closed, failures := 0, half_open_calls := 0 }

/-- `is_open()`: returns the boolean and the possibly-mutated breaker (an
OPEN breaker past its recovery time transitions to HALF_OPEN inside this
call).  Note that the HALF_OPEN branch only compares `_half_open_calls`
against `half_open_max_calls`; no code path ever increments
`_half_open_calls`. -/
def cbIsOpen (b : CircuitBreaker) (now : ℚ) : Bool × CircuitBreaker :=
  match b.state with
  | CircuitState.closed => (false, b)
  | CircuitState.opened =>
    if b.recovery_time ≤ now - b.last_failure_time then (false, cbToHalfOpen b)
    else (true, b)
  | CircuitState.halfOpen =>
    if b.half_open_max_calls ≤ b.half_open_calls then (true, b) else (false, b)

/-- `record_success()`. -/
def cbRecordSuccess (b : CircuitBreaker) : CircuitBreaker :=
  match b.state with
  | CircuitState.halfOpen => cbToClosed b
  | CircuitState.closed => { b with failures := 0 }
  | CircuitState.opened => b

/-- `record_failure(now)`. -/
def cbRecordFailure (b : CircuitBreaker) (now : ℚ) : CircuitBreaker :=
  let b := { b with failures := b.failures + 1, last_failure_time := now }
  match b.state with
  | CircuitState.halfOpen => cbToOpen b
  | CircuitState.closed =>
    if b.failure_threshold ≤ b.failures then cbToOpen b else b
  | CircuitState.opened => b

/-- `n` consecutive `record_failure` calls at instants `ts` (applied left to
right). -/
def cbRecordFailures (b : CircuitBreaker) (ts : List ℚ) : CircuitBreaker :=
  ts.foldl cbRecordFailure b

/-- The `RateLimiter` dataclass: sliding-window token bucket. -/
structure RateLimiter where
  max_requests : Nat
  window_seconds : ℚ := 60
  tokens : List ℚ := []
deriving DecidableEq, Repr

/-- `try_acquire()`: prune tokens older than the window, refuse when the
bucket is full, otherwise append the current instant. -/
def rlTryAcquire (l : RateLimiter) (now : ℚ) : Bool × RateLimiter :=
  let pruned := l.tokens.filter (fun t => now - l.window_seconds < t)
  if l.max_requests ≤ pruned.length then (false, { l with tokens := pruned })
  else (true, { l with tokens := pruned ++ [now] })

/-! ### Pi-hole cursor logic (`cyberWatch/collector/sources.py`) -/

/-- A Pi-hole v6 query row, after `_extract_v6_fields` /
`_coerce_epoch_seconds`: the `time` field is `none` when the row carried no
usable timestamp, and times are seconds since the epoch. -/
structure V6Row where
  time : Option ℚ
  domain : String
  client_ip : Option String
  qtype : Option String
deriving DecidableEq, Repr

/-- A `DNSQuery` record emitted by a source. -/
structure DNSQueryRec where
  domain : String
  client_ip : Option String
  qtype : Option String
  timestamp : ℚ
deriving DecidableEq, Repr

/-- The accept loop of `PiholeApiSource._fetch_v6`: a row is skipped when its
domain is empty or its timestamp is missing, and when its timestamp is
`≤ self.last_seen_ts` (the cursor value held before the run — the attribute
is only reassigned after the loop). -/
def fetchV6Accept (cursor : ℚ) : List V6Row → List DNSQueryRec
  | [] => []
  | r :: rest =>
    if r.domain = "" then fetchV6Accept cursor rest
    else
      match r.time with
      | none => fetchV6Accept cursor rest
      | some t =>
        if t ≤ cursor then fetchV6Accept cursor rest
        else { domain := r.domain, client_ip := r.client_ip, qtype := r.qtype,
               timestamp := t } :: fetchV6Accept cursor rest

/-- `max(q.timestamp.timestamp() for q in queries)` over a non-empty list. -/
def maxTimestamp (q : DNSQueryRec) (qs : List DNSQueryRec) : ℚ :=
  qs.foldl (fun acc x => max acc x.timestamp) q.timestamp

/-- `_fetch_v6` restricted to its cursor behaviour: returns the accepted
queries and the new `last_seen_ts` (`if queries: self.last_seen_ts = max(...)`). -/
def fetchV6 (cursor : ℚ) (rows : List V6Row) : List DNSQueryRec × ℚ :=
  let qs := fetchV6Accept cursor rows
  match qs with
  | [] => (qs, cursor)
  | q :: rest => (qs, maxTimestamp q rest)

/-- A Pi-hole v5 row after the `try` block: `none` models a row whose
timestamp/fields failed to parse (the `except` path skips it). -/
structure V5Row where
  time : ℚ
  domain : String
  client_ip : Option String
  qtype : Option String
deriving DecidableEq, Repr

/-- The accept loop of `PiholeApiSource._fetch_v5`: unparseable rows are
skipped, then rows with `ts_raw <= self.last_seen_ts` are skipped. -/
def fetchV5Accept (cursor : ℚ) : List (Option V5Row) → List DNSQueryRec
  | [] => []
  | none :: rest => fetchV5Accept cursor rest
  | some r :: rest =>
    if r.time ≤ cursor then fetchV5Accept cursor rest
    else { domain := r.domain, client_ip := r.client_ip, qtype := r.qtype,
           timestamp := r.time } :: fetchV5Accept cursor rest

/-- `_fetch_v5` restricted to its cursor behaviour. -/
def fetchV5 (cursor : ℚ) (rows : List (Option V5Row)) : List DNSQueryRec × ℚ :=
  let qs := fetchV5Accept cursor rows
  match qs with
  | [] => (qs, cursor)
  | q :: rest => (qs, maxTimestamp q rest)

/-! ### ASN metadata upsert (`db/pg.py upsert_asn`) -/

/-- The keyword arguments of `upsert_asn`.  `source` is a plain string with
default `"cymru"`, so the `if source is not None` guard in the update path is
always taken; the remaining fields are optional. -/
structure AsnPatch where
  org_name : Option String := none
  country_code : Option String := none
  source : String := "cymru"
  peeringdb_id : Option Nat := none
  facility_count : Option Nat := none
  peering_policy : Option String := none
  traffic_levels : Option String := none
  irr_as_set : Option String := none
deriving DecidableEq, Repr

/-- A row of the `asns` table (the columns `upsert_asn` reads and writes). -/
structure AsnRecord where
  asn : Nat
  org_name : Option String
  country_code : Option String
  source : String
  peeringdb_id : Option Nat
  facility_count : Option Nat
  peering_policy : Option String
  traffic_levels : Option String
  irr_as_set : Option String
  last_seen : Option ℚ
  updated_at : Option ℚ
deriving DecidableEq, Repr

/-- The insert branch of `upsert_asn`.  The `INSERT` statement lists only the
metadata columns.  Modelled from the spec: the schema DDL is not part of the
source tree; the spec's data model maintains `last_seen` on every observation
and `upsert_asn` is specified to "bump `last_seen`", so the column default is
modelled as the insertion instant. -/
def insertAsn (asn : Nat) (p : AsnPatch) (now : ℚ) : AsnRecord :=
  { asn := asn, org_name := p.org_name, country_code := p.country_code,
    source := p.source, peeringdb_id := p.peeringdb_id,
    facility_count := p.facility_count, peering_policy := p.peering_policy,
    traffic_levels := p.traffic_levels, irr_as_set := p.irr_as_set,
    last_seen := some now, updated_at := some now }

/-- The update branch of `upsert_asn`: each metadata column is assigned only
when the corresponding argument is non-null (`source` always is), and since
the update list is then non-empty, `last_seen = NOW(), updated_at = NOW()`
are appended. -/
def updateAsn (r : AsnRecord) (p : AsnPatch) (now : ℚ) : AsnRecord :=
  { r with
    org_name := p.org_name.orElse (fun _ => r.org_name)
    country_code := p.country_code.orElse (fun _ => r.country_code)
    source := p.source
    peeringdb_id := p.peeringdb_id.orElse (fun _ => r.peeringdb_id)
    facility_count := p.facility_count.orElse (fun _ => r.facility_count)
    peering_policy := p.peering_policy.orElse (fun _ => r.peering_policy)
    traffic_levels := p.traffic_levels.orElse (fun _ => r.traffic_levels)
    irr_as_set := p.irr_as_set.orElse (fun _ => r.irr_as_set)
    last_seen := some now
    updated_at := some now }

/-- `upsert_asn(pool, asn, **patch)` as a function of the existing row. -/
def upsertAsn (existing : Option AsnRecord) (asn : Nat) (p : AsnPatch) (now : ℚ) : AsnRecord :=
  match existing with
  | none => insertAsn asn p now
  | some r => updateAsn r p now

/-! ### Traceroute output parser (`cyberWatch/workers/worker.py`) -/

/-- Python `\s` over the ASCII range: space, tab, newline, carriage return,
vertical tab, form feed. -/
def isSpacePy (c : Char) : Bool :=
  c == ' ' || c == '\t' || c == '\n' || c == '\r' || c == Char.ofNat 11 || c == Char.ofNat 12

/-- The character class `[0-9.]` of the `rtt1` group. -/
def isNumDot (c : Char) : Bool := c.isDigit || c == '.'

/-- The character class `[0-9.*]` of the `rtt2`/`rtt3` groups. -/
def isNumDotStar (c : Char) : Bool := c.isDigit || c == '.' || c == '*'

/-- `int(...)` on a digit string. -/
def natOfDigits (ds : List Char) : Nat :=
  ds.foldl (fun n c => 10 * n + (c.toNat - '0'.toNat)) 0

/-- `float(...)` on a string drawn from `[0-9.]`: at most one dot and at
least one digit, value read in decimal.  Returns `none` where Python raises
`ValueError`. -/
def pyFloat? (cs : List Char) : Option ℚ :=
  let intPart := cs.takeWhile Char.isDigit
  let rest := cs.dropWhile Char.isDigit
  match rest with
  | [] => if intPart = [] then none else some (natOfDigits intPart : ℚ)
  | '.' :: frac =>
    if frac.all Char.isDigit ∧ (intPart ≠ [] ∨ frac ≠ []) then
      some ((natOfDigits intPart : ℚ) + (natOfDigits frac : ℚ) / (10 ^ frac.length : ℚ))
    else none
  | _ => none

/-- Python `str.strip()`. -/
def pyStrip (cs : List Char) : List Char :=
  ((cs.dropWhile isSpacePy).reverse.dropWhile isSpacePy).reverse

/-- Python `str.split()` (split on whitespace runs, no empty parts):
accumulator-based tail of the split. -/
def pySplitAux : List Char → List Char → List (List Char)
  | [], cur => if cur = [] then [] else [cur.reverse]
  | c :: rest, cur =>
    if isSpacePy c then
      if cur = [] then pySplitAux rest [] else cur.reverse :: pySplitAux rest []
    else pySplitAux rest (c :: cur)

/-- Python `str.split()`. -/
def pySplit (cs : List Char) : List (List Char) := pySplitAux cs []

/-- Python `str.splitlines()` (modulo a trailing empty line, which the parser
skips anyway): accumulator-based splitter on `\n`, `\r\n` and `\r`. -/
def splitLinesAux : List Char → List Char → List (List Char)
  | [], acc => [acc.reverse]
  | c :: rest, acc =>
    if c = '\n' then acc.reverse :: splitLinesAux rest []
    else if c = '\r' then
      match rest with
      | '\n' :: rest2 => acc.reverse :: splitLinesAux rest2 []
      | [] => [acc.reverse, []]
      | c2 :: rest2 => acc.reverse :: splitLinesAux (c2 :: rest2) []
    else splitLinesAux rest (c :: acc)
termination_by cs _ => cs.length
decreasing_by all_goals simp <;> omega

/-- Python `str.splitlines()`. -/
def splitLines (cs : List Char) : List (List Char) := splitLinesAux cs []

/-- Consume the literal `ms` of the regex (after `\s*` has been dropped):
returns the remainder on success. -/
def msAfter : List Char → Option (List Char)
  | 'm' :: 's' :: rest => some rest
  | _ => none

/-- The optional groups `(?:\s+(?P<rtt2>[0-9.*]+)\s*ms)?` of
`TRACEROUTE_PATTERN`: one or more spaces, a non-empty `[0-9.*]` run, any
spaces, then the literal `ms`.  Returns the captured group and the remaining
input.  (The regex groups here are runs of character classes separated by
character classes they exclude, so the greedy backtracking match is the
maximal-run match this function computes.) -/
def matchOptRtt (cs : List Char) : Option (List Char × List Char) :=
  match cs.head? with
  | none => none
  | some c =>
    if isSpacePy c then
      let afterSp := cs.dropWhile isSpacePy
      let g := afterSp.takeWhile isNumDotStar
      if g = [] then none
      else
        match msAfter ((afterSp.dropWhile isNumDotStar).dropWhile isSpacePy) with
        | some rest => some (g, rest)
        | none => none
    else none

/-- `TRACEROUTE_PATTERN.match(line)`, specialized: returns the captured
groups `(hop, ip, rtt1, rtt2, rtt3)` of
`^\s*(\d+)\s+(\S+)\s+([0-9.]+)\s*ms(?:\s+([0-9.*]+)\s*ms)?(?:\s+([0-9.*]+)\s*ms)?`.
If the second optional group fails, the third is attempted at the same
position with the same pattern, so it fails as well; matching it once and
reusing the result is therefore exact. -/
def matchTracerouteLine (cs : List Char) :
    Option (List Char × List Char × List Char × Option (List Char) × Option (List Char)) :=
  let s0 := cs.dropWhile isSpacePy
  let hop := s0.takeWhile Char.isDigit
  if hop = [] then none
  else
    let s1 := s0.dropWhile Char.isDigit
    match s1.head? with
    | none => none
    | some c1 =>
      if ¬ isSpacePy c1 then none
      else
        let s2 := s1.dropWhile isSpacePy
        let ip := s2.takeWhile (fun c => !isSpacePy c)
        if ip = [] then none
        else
          let s3 := s2.dropWhile (fun c => !isSpacePy c)
          match s3.head? with
          | none => none
          | some c3 =>
            if ¬ isSpacePy c3 then none
            else
              let s4 := s3.dropWhile isSpacePy
              let r1 := s4.takeWhile isNumDot
              if r1 = [] then none
              else
                match msAfter ((s4.dropWhile isNumDot).dropWhile isSpacePy) with
                | some s6 =>
                  match matchOptRtt s6 with
                  | none => some (hop, ip, r1, none, none)
                  | some (g2, s7) =>
                    match matchOptRtt s7 with
                    | none => some (hop, ip, r1, some g2, none)
                    | some (g3, _) => some (hop, ip, r1, some g2, some g3)
                | none => none

/-- `HopModel` from `worker.py`. -/
structure HopModel where
  hop : Nat
  ip : Option String
  rtt_ms : Option ℚ
deriving DecidableEq, Repr

/-- One iteration of the RTT-averaging loop: keep a group whose text does
not contain `*` and parses as a float (a `ValueError` drops the value). -/
def rttStep (g : List Char) (acc : List ℚ) : List ℚ :=
  if g.contains '*' then acc
  else match pyFloat? g with
    | some v => v :: acc
    | none => acc

/-- The RTT-averaging step of `_parse_traceroute_hops` over the present
groups `(rtt1, rtt2, rtt3)`. -/
def rttValues (r1 : List Char) (r2 r3 : Option (List Char)) : List ℚ :=
  ([some r1, r2, r3].filterMap id).foldr rttStep []

/-- The per-line body of `_parse_traceroute_hops`: on a regex match, truncate
the IP at the first `(`, null it when it contains `*`, and average the
surviving RTT values; otherwise fall back to the `N * * *` timeout-line
handling (`parts[0].isdigit()` and every later part equal to `"*"`). -/
def parseTracerouteLine (line : List Char) : Option HopModel :=
  match matchTracerouteLine line with
  | some (hopDs, ipTok, r1, r2, r3) =>
    let ipRaw := if ipTok.contains '(' then pyStrip (ipTok.takeWhile (fun c => c ≠ '(')) else ipTok
    let ip : Option String := if ipRaw.contains '*' then none else some (String.mk ipRaw)
    let vals := rttValues r1 r2 r3
    let rtt : Option ℚ := if vals = [] then none else some (vals.sum / (vals.length : ℚ))
    some { hop := natOfDigits hopDs, ip := ip, rtt_ms := rtt }
  | none =>
    match pySplit line with
    | [] => none
    | p0 :: rest =>
      if p0 ≠ [] ∧ p0.all Char.isDigit ∧ rest.all (fun p => p = ['*']) then
        some { hop := natOfDigits p0, ip := none, rtt_ms := none }
      else none

/-- `_parse_traceroute_hops(output)`: split into lines, strip each, skip
empty lines and lines starting with `traceroute`, parse the rest. -/
def parseTracerouteHops (output : List Char) : List HopModel :=
  (splitLines output).filterMap fun l =>
    let line := pyStrip l
    if line = [] then none
    else if "traceroute".data.isPrefixOf line then none
    else parseTracerouteLine line

/-- The outcome of `run_traceroute` for the plain-traceroute tool, as a
function of the child's exit code and captured output:
`success = code == 0 and len(hops) > 0`. -/
structure MeasurementOutcome where
  success : Bool
  hops : List HopModel
deriving DecidableEq, Repr

/-- `run_traceroute` (traceroute branch), restricted to parsing and the
success flag. -/
def runTracerouteOutcome (code : Int) (output : List Char) : MeasurementOutcome :=
  let hops := parseTracerouteHops output
  { success := decide (code = 0) && decide (0 < hops.length), hops := hops }

/-! ### External lookup `lookup_ip_api` (`cyberWatch/enrichment/external_sources.py`) -/

/-- `ExternalAsnInfo` pydantic model (the `prefix` field is spelled
`prefixVal` here). -/
structure ExternalAsnInfo where
  asn : Option Int := none
  org_name : Option String := none
  country : Option String := none
  prefixVal : Option String := none
  registry : Option String := none
  source : Option String := none
deriving DecidableEq, Repr

/-- Python `str.split(None, 1)`: at most two parts, split at the first
whitespace run, remainder keeps its own inner spacing but loses leading
whitespace. -/
def pySplit1 (cs : List Char) : List (List Char) :=
  let s0 := cs.dropWhile isSpacePy
  let tok := s0.takeWhile (fun c => ¬ isSpacePy c)
  if tok = [] then []
  else
    let rest := (s0.dropWhile (fun c => ¬ isSpacePy c)).dropWhile isSpacePy
    if rest = [] then [tok] else [tok, rest]

/-- Python `str.replace("AS", "")`: left-to-right removal of non-overlapping
occurrences. -/
def removeAS : List Char → List Char
  | 'A' :: 'S' :: rest => removeAS rest
  | c :: rest => c :: removeAS rest
  | [] => []

/-- Python `int(...)` on a stripped string: optional sign then digits. -/
def pyInt? (cs : List Char) : Option Int :=
  let s := pyStrip cs
  match s with
  | '-' :: ds => if ds ≠ [] ∧ ds.all Char.isDigit then some (-(natOfDigits ds : Int)) else none
  | '+' :: ds => if ds ≠ [] ∧ ds.all Char.isDigit then some (natOfDigits ds : Int) else none
  | ds => if ds ≠ [] ∧ ds.all Char.isDigit then some (natOfDigits ds : Int) else none

/-- The `as` field parse of `lookup_ip_api`: `"AS15169 Google LLC"` gives
`asn = 15169` (when the `int` conversion succeeds) and
`org_name = "Google LLC"`. -/
def parseAsField (asField : String) : Option Int × Option String :=
  match pySplit1 asField.data with
  | [] => (none, none)
  | [p0] => (pyInt? (removeAS p0), none)
  | p0 :: p1 :: _ => (pyInt? (removeAS p0), some (String.mk p1))

/-- The outcome of the single HTTP exchange performed by `lookup_ip_api`. -/
inductive IpApiResponse
  | okSuccess (asField : String) (countryCode : Option String)
  | okFail
  | status (code : Nat)
  | timeout
  | exn
deriving DecidableEq, Repr

/-- The process-local TTL cache of `external_sources.py`:
key to `(timestamp, value)`. -/
abbrev ExtCache := List (String × ℚ × ExternalAsnInfo)

/-- `_cache_get`: expired entries are popped on read. -/
def extCacheGet (c : ExtCache) (key : String) (now ttl : ℚ) : Option ExternalAsnInfo × ExtCache :=
  match (c.find? (fun e => e.1 = key)) with
  | none => (none, c)
  | some (_, ts, val) =>
    if ttl < now - ts then (none, c.filter (fun e => e.1 ≠ key))
    else (some val, c)

/-- `_cache_set`. -/
def extCacheSet (c : ExtCache) (key : String) (now : ℚ) (val : ExternalAsnInfo) : ExtCache :=
  if (c.find? (fun e => e.1 = key)).isSome then
    c.map (fun e => if e.1 = key then (key, now, val) else e)
  else c ++ [(key, now, val)]

/-- Process-local state touched by `lookup_ip_api`: the shared cache, the
`ip_api` circuit breaker and the `ip_api` rate limiter. -/
structure IpApiState where
  cache : ExtCache
  breaker : CircuitBreaker
  limiter : RateLimiter
  cache_ttl : ℚ
deriving DecidableEq, Repr

/-- `lookup_ip_api(ip)` at instant `now`, with the HTTP exchange's outcome
supplied as `resp`: cache probe, breaker probe, limiter probe, then the
request; every HTTP branch (success, fail-status, 429, other status,
timeout, exception) falls through to `_cache_set(cache_key, info)` before
returning `info`. -/
def lookupIpApi (st : IpApiState) (ip : String) (now : ℚ) (resp : IpApiResponse) :
    ExternalAsnInfo × IpApiState :=
  let key := "ipapi:" ++ ip
  match extCacheGet st.cache key now st.cache_ttl with
  | (some cached, cache1) => (cached, { st with cache := cache1 })
  | (none, cache1) =>
    let st := { st with cache := cache1 }
    match cbIsOpen st.breaker now with
    | (true, br1) => ({ source := some "ip-api" }, { st with breaker := br1 })
    | (false, br1) =>
      let st := { st with breaker := br1 }
      match rlTryAcquire st.limiter now with
      | (false, lim1) => ({ source := some "ip-api" }, { st with limiter := lim1 })
      | (true, lim1) =>
        let st := { st with limiter := lim1 }
        let (info, br2) :=
          match resp with
          | IpApiResponse.okSuccess asField countryCode =>
            let (asnI, orgName) := parseAsField asField
            ({ asn := asnI, org_name := orgName, country := countryCode,
               source := some "ip-api" } , cbRecordSuccess st.breaker)
          | IpApiResponse.okFail => ({ source := some "ip-api" }, st.breaker)
          | IpApiResponse.status _ => ({ source := some "ip-api" }, cbRecordFailure st.breaker now)
          | IpApiResponse.timeout => ({ source := some "ip-api" }, cbRecordFailure st.breaker now)
          | IpApiResponse.exn => ({ source := some "ip-api" }, cbRecordFailure st.breaker now)
        (info, { st with breaker := br2, cache := extCacheSet st.cache key now info })

/-! ### Relational-store pipeline state
(`db/pg.py`, `db/pg_dns.py`, `enrichment/enricher.py`, `enrichment/graph_builder.py`) -/

/-- A row of `targets`. -/
structure Target where
  id : Nat
  target_ip : String
  source : Option String
  last_seen : Option ℚ
deriving DecidableEq, Repr

/-- A row of `measurements` (the columns the pipeline reads and writes;
`raw_output`/`tool` carry no claim content and are omitted). -/
structure Measurement where
  id : Nat
  target_id : Nat
  started_at : ℚ
  completed_at : Option ℚ
  success : Bool
  enriched : Bool
  graph_built : Bool
  enriched_at : Option ℚ
  graph_built_at : Option ℚ
deriving DecidableEq, Repr

/-- A row of `hops`. -/
structure Hop where
  id : Nat
  measurement_id : Nat
  hop_number : Nat
  hop_ip : Option String
  rtt_ms : Option ℚ
  asn : Option Nat
  prefixVal : Option String
  org_name : Option String
  country_code : Option String
deriving DecidableEq, Repr

/-- The relational store plus the graph store, with fresh-id counters for the
serial primary keys. -/
structure PgState where
  targets : List Target
  measurements : List Measurement
  hops : List Hop
  asns : List AsnRecord
  graph : GraphDB
  nextTargetId : Nat
  nextMeasurementId : Nat
  nextHopId : Nat
deriving DecidableEq, Repr

/-- The empty database. -/
def initState : PgState :=
  { targets := [], measurements := [], hops := [], asns := [], graph := []
    nextTargetId := 0, nextMeasurementId := 0, nextHopId := 0 }

/-- `_get_or_create_target(conn, target_ip, source=source)`:
`SELECT id FROM targets WHERE target_ip = $1`, else
`INSERT INTO targets (target_ip, source) VALUES ($1, $2) RETURNING id`
with `source or "static"`. -/
def getOrCreateTarget (s : PgState) (target_ip : String) (source : Option String) :
    Nat × PgState :=
  match s.targets.find? (fun t => t.target_ip = target_ip) with
  | some t => (t.id, s)
  | none =>
    (s.nextTargetId,
     { s with
        targets := s.targets ++
          [{ id := s.nextTargetId, target_ip := target_ip,
             source := some (source.getD "static"), last_seen := none }]
        nextTargetId := s.nextTargetId + 1 })

/-- One `INSERT INTO hops (measurement_id, hop_number, hop_ip, rtt_ms)` row
of `insert_measurement`: only those columns are set, the enrichment columns
start null. -/
def insertHopRow (mid : Nat) (st : PgState) (hp : Nat × Option String × Option ℚ) : PgState :=
  { st with
    hops := st.hops ++
      [{ id := st.nextHopId, measurement_id := mid, hop_number := hp.1,
         hop_ip := hp.2.1, rtt_ms := hp.2.2, asn := none, prefixVal := none,
         org_name := none, country_code := none }]
    nextHopId := st.nextHopId + 1 }

/-- `insert_measurement(...)`: get-or-create target, insert the measurement
row (status flags start false), insert each hop in payload order with only
`(hop_number, hop_ip, rtt_ms)` set, then
`UPDATE targets SET last_seen = $1` with `completed_at or started_at`. -/
def insertMeasurementOp (s : PgState) (target_ip : String) (started_at : ℚ)
    (completed_at : Option ℚ) (success : Bool)
    (hopsPayload : List (Nat × Option String × Option ℚ)) (source : Option String) :
    Nat × PgState :=
  let gc := getOrCreateTarget s target_ip source
  let target_id := gc.1
  let s1 := gc.2
  let mid := s1.nextMeasurementId
  let s2 : PgState := { s1 with
    measurements := s1.measurements ++
      [{ id := mid, target_id := target_id, started_at := started_at,
         completed_at := completed_at, success := success, enriched := false,
         graph_built := false, enriched_at := none, graph_built_at := none }]
    nextMeasurementId := mid + 1 }
  let s3 : PgState := hopsPayload.foldl (insertHopRow mid) s2
  let lastSeen := completed_at.getD started_at
  (mid,
   { s3 with
      targets := s3.targets.map
        (fun t => if t.id = target_id then { t with last_seen := some lastSeen } else t) })

/-- `touch_target` from `db/pg.py`:
`INSERT ... ON CONFLICT (target_ip) DO UPDATE SET
 last_seen = COALESCE(EXCLUDED.last_seen, targets.last_seen)`;
the inserted value is `seen_at or datetime.utcnow()`, always non-null. -/
def touchTargetOp (s : PgState) (target_ip : String) (source : String) (seen_at : ℚ) : PgState :=
  match s.targets.find? (fun t => t.target_ip = target_ip) with
  | some _ =>
    { s with
      targets := s.targets.map
        (fun t => if t.target_ip = target_ip then { t with last_seen := some seen_at } else t) }
  | none =>
    { s with
      targets := s.targets ++
        [{ id := s.nextTargetId, target_ip := target_ip, source := some source,
           last_seen := some seen_at }]
      nextTargetId := s.nextTargetId + 1 }

/-- `SQL_TOUCH_TARGET` from `db/pg_dns.py`: as `touch_target` but the update
additionally keeps the existing source
(`source = COALESCE(targets.source, EXCLUDED.source)`). -/
def touchTargetDnsOp (s : PgState) (target_ip : String) (source : String) (seen_at : ℚ) : PgState :=
  match s.targets.find? (fun t => t.target_ip = target_ip) with
  | some _ =>
    { s with
      targets := s.targets.map
        (fun t =>
          if t.target_ip = target_ip then
            { t with last_seen := some seen_at,
                     source := t.source.orElse (fun _ => some source) }
          else t) }
  | none =>
    { s with
      targets := s.targets ++
        [{ id := s.nextTargetId, target_ip := target_ip, source := some source,
           last_seen := some seen_at }]
      nextTargetId := s.nextTargetId + 1 }

/-- Success flag of the measurement a hop belongs to (the
`JOIN measurements m ON m.id = h.measurement_id` of
`fetch_unenriched_hops`). -/
def measurementSuccess (s : PgState) (mid : Nat) : Bool :=
  match s.measurements.find? (fun m => m.id = mid) with
  | some m => m.success
  | none => false

/-- `started_at` of a hop's measurement, for the `ORDER BY m.started_at`. -/
def measurementStartedAt (s : PgState) (mid : Nat) : ℚ :=
  match s.measurements.find? (fun m => m.id = mid) with
  | some m => m.started_at
  | none => 0

/-- Insertion sort used to model SQL `ORDER BY`. -/
def insertSorted (le : α → α → Bool) (x : α) : List α → List α
  | [] => [x]
  | y :: rest => if le x y then x :: y :: rest else y :: insertSorted le x rest

/-- Sort a list by a boolean comparison. -/
def sortByLe (le : α → α → Bool) (l : List α) : List α :=
  l.foldr (insertSorted le) []

/-- `fetch_unenriched_hops(pool, limit)`: hops with a non-null IP, a null
ASN, and a successful parent measurement, ordered by the measurement's
`started_at` then `hop_number`, limited. -/
def fetchUnenrichedHops (s : PgState) (limit : Nat) : List Hop :=
  let matching := s.hops.filter
    (fun h => h.hop_ip ≠ none ∧ h.asn = none ∧ measurementSuccess s h.measurement_id = true)
  (sortByLe
    (fun a b =>
      let ka := measurementStartedAt s a.measurement_id
      let kb := measurementStartedAt s b.measurement_id
      ka < kb ∨ (ka = kb ∧ a.hop_number ≤ b.hop_number))
    matching).take limit

/-- `update_hop_enrichment(pool, hop_id, asn=..., prefix=..., org_name=...,
country_code=...)`: a point `UPDATE hops ... WHERE id = $1`. -/
def updateHopEnrichment (s : PgState) (hop_id : Nat) (asn : Option Nat)
    (prefixVal org_name country_code : Option String) : PgState :=
  { s with
    hops := s.hops.map
      (fun h =>
        if h.id = hop_id then
          { h with asn := asn, prefixVal := prefixVal, org_name := org_name,
                   country_code := country_code }
        else h) }

/-- `mark_measurement_enriched`. -/
def markMeasurementEnriched (s : PgState) (mid : Nat) (now : ℚ) : PgState :=
  { s with
    measurements := s.measurements.map
      (fun m => if m.id = mid then { m with enriched := true, enriched_at := some now } else m) }

/-- `remaining_unenriched_hops(pool, measurement_id)`:
`COUNT(*) FROM hops WHERE measurement_id = $1 AND asn IS NULL AND hop_ip IS NOT NULL`. -/
def remainingUnenrichedHops (s : PgState) (mid : Nat) : Nat :=
  (s.hops.filter (fun h => h.measurement_id = mid ∧ h.asn = none ∧ h.hop_ip ≠ none)).length

/-- `fetch_measurements_for_graph(pool, limit)`: `enriched = TRUE AND
graph_built = FALSE`, ordered by `started_at`, limited. -/
def fetchMeasurementsForGraph (s : PgState) (limit : Nat) : List Measurement :=
  (sortByLe (fun a b => a.started_at ≤ b.started_at)
    (s.measurements.filter (fun m => m.enriched = true ∧ m.graph_built = false))).take limit

/-- `fetch_hops_for_measurement`: hops of the measurement with a non-null
ASN, ordered by `hop_number`, projected to the columns the graph builder
reads. -/
def fetchHopsForMeasurement (s : PgState) (mid : Nat) : List HopRow :=
  (sortByLe (fun a b => a.hop_number ≤ b.hop_number)
    (s.hops.filter (fun h => h.measurement_id = mid ∧ h.asn ≠ none))).map
    (fun h => { hop_number := h.hop_number, asn := h.asn, org_name := h.org_name,
                country_code := h.country_code, rtt_ms := h.rtt_ms })

/-- `mark_measurement_graph_built`. -/
def markMeasurementGraphBuilt (s : PgState) (mid : Nat) (now : ℚ) : PgState :=
  { s with
    measurements := s.measurements.map
      (fun m =>
        if m.id = mid then { m with graph_built := true, graph_built_at := some now } else m) }

/-! ### Enrichment engine (`cyberWatch/enrichment/enricher.py`) -/

/-- `AsnInfo` from `enrichment/asn_lookup.py` (the Team Cymru result;
`prefix` is spelled `prefixVal`). -/
structure AsnInfo where
  asn : Option Nat
  prefixVal : Option String
  org_name : Option String
  country : Option String
deriving DecidableEq, Repr

/-- The PeeringDB `AsnOrg` fields `process_batch` consumes. -/
structure AsnOrg where
  org_name : Option String
  country : Option String
  peeringdb_id : Option Nat
  facility_count : Nat
  peering_policy : Option String
  traffic_levels : Option String
  irr_as_set : Option String
deriving DecidableEq, Repr

/-- The outcome of `enrich_hop` for one hop, with the three lookups
abstracted as an oracle on the hop IP; `none` models the
`isinstance(outcome, BaseException)` branch of `process_batch` (the hop is
skipped). -/
abbrev EnrichOracle := Option String → Option (AsnInfo × Option AsnOrg × Option ExternalAsnInfo)

/-- Python truthiness of an optional string (`None` and `""` are falsy). -/
def strTruthy : Option String → Bool
  | none => false
  | some s => decide (s ≠ "")

/-- The source-preference merge of `process_batch`:
`asn_org.org_name if asn_org and asn_org.org_name else external_info.org_name
 if external_info and external_info.org_name else asn_info.org_name`. -/
def mergeOrgName (asn_org : Option AsnOrg) (ext : Option ExternalAsnInfo)
    (cymru : AsnInfo) : Option String :=
  match asn_org with
  | some o => if strTruthy o.org_name then o.org_name else
      match ext with
      | some e => if strTruthy e.org_name then e.org_name else cymru.org_name
      | none => cymru.org_name
  | none =>
    match ext with
    | some e => if strTruthy e.org_name then e.org_name else cymru.org_name
    | none => cymru.org_name

/-- As `mergeOrgName`, for the country field. -/
def mergeCountry (asn_org : Option AsnOrg) (ext : Option ExternalAsnInfo)
    (cymru : AsnInfo) : Option String :=
  match asn_org with
  | some o => if strTruthy o.country then o.country else
      match ext with
      | some e => if strTruthy e.country then e.country else cymru.country
      | none => cymru.country
  | none =>
    match ext with
    | some e => if strTruthy e.country then e.country else cymru.country
    | none => cymru.country

/-- The per-hop write step of `process_batch`: on an exception outcome the
hop is skipped, otherwise `update_hop_enrichment` is called with the Cymru
ASN/prefix and the merged org/country. -/
def applyHopUpdate (oracle : EnrichOracle) (s : PgState) (r : Hop) : PgState :=
  match oracle r.hop_ip with
  | none => s
  | some (asn_info, asn_org, ext) =>
    updateHopEnrichment s r.id asn_info.asn asn_info.prefixVal
      (mergeOrgName asn_org ext asn_info) (mergeCountry asn_org ext asn_info)

/-- The value type of the `asns_to_upsert` dict in `process_batch`. -/
structure AsnMeta where
  org_name : Option String
  country_code : Option String
  source : String
  peeringdb_id : Option Nat
  facility_count : Nat
  peering_policy : Option String
  traffic_levels : Option String
  irr_as_set : Option String
deriving DecidableEq, Repr

/-- Dict entry created the first time an ASN is seen in the batch
(`source = "cymru"`, `facility_count = 0`). -/
def initAsnMeta (org country : Option String) : AsnMeta :=
  { org_name := org, country_code := country, source := "cymru",
    peeringdb_id := none, facility_count := 0, peering_policy := none,
    traffic_levels := none, irr_as_set := none }

/-- The `asns_to_upsert[asn].update({...})` step taken whenever the hop's
PeeringDB lookup returned data: overwrites the PeeringDB-derived keys and
the source, keeps `org_name`/`country_code`. -/
def applyPeeringdbMeta (m : AsnMeta) (o : AsnOrg) : AsnMeta :=
  { m with
    source := "peeringdb", peeringdb_id := o.peeringdb_id,
    facility_count := o.facility_count, peering_policy := o.peering_policy,
    traffic_levels := o.traffic_levels, irr_as_set := o.irr_as_set }

/-- One step of building `asns_to_upsert` from a hop's enrichment outcome. -/
def collectMetaStep (oracle : EnrichOracle) (acc : List (Nat × AsnMeta)) (r : Hop) :
    List (Nat × AsnMeta) :=
  match oracle r.hop_ip with
  | none => acc
  | some (asn_info, asn_org, ext) =>
    match asn_info.asn with
    | none => acc
    | some a =>
      let acc1 :=
        if (acc.find? (fun e => e.1 = a)).isSome then acc
        else acc ++ [(a, initAsnMeta (mergeOrgName asn_org ext asn_info)
                                     (mergeCountry asn_org ext asn_info))]
      match asn_org with
      | none => acc1
      | some o => acc1.map (fun e => if e.1 = a then (a, applyPeeringdbMeta e.2 o) else e)

/-- The full `asns_to_upsert` dict of a batch.  (In the source the dict is
built inside the same loop that writes the hops; the dict depends only on
the fetched records and the lookup results, so building it separately is
equivalent.) -/
def collectMetas (oracle : EnrichOracle) (records : List Hop) : List (Nat × AsnMeta) :=
  records.foldl (collectMetaStep oracle) []

/-- The `AsnPatch` corresponding to a dict entry (`upsert_asn(pool, asn,
**metadata)`; `facility_count` is always an `int` here, never `None`). -/
def metaToPatch (m : AsnMeta) : AsnPatch :=
  { org_name := m.org_name, country_code := m.country_code, source := m.source,
    peeringdb_id := m.peeringdb_id, facility_count := some m.facility_count,
    peering_policy := m.peering_policy, traffic_levels := m.traffic_levels,
    irr_as_set := m.irr_as_set }

/-- `upsert_asn` against the `asns` table of the state. -/
def dbUpsertAsn (s : PgState) (a : Nat) (p : AsnPatch) (now : ℚ) : PgState :=
  match s.asns.find? (fun r => r.asn = a) with
  | some r =>
    { s with asns := s.asns.map (fun r0 => if r0.asn = a then updateAsn r0 p now else r0) }
  | none => { s with asns := s.asns ++ [insertAsn a p now] }

/-- `process_batch(pool, records)`: write every hop's enrichment, upsert the
collected ASN metadata, then for each distinct touched `measurement_id`
check `remaining_unenriched_hops` and mark the measurement enriched when it
reached zero. -/
def processBatch (oracle : EnrichOracle) (s : PgState) (records : List Hop) (now : ℚ) : PgState :=
  let s1 := records.foldl (applyHopUpdate oracle) s
  let s2 := (collectMetas oracle records).foldl
    (fun st e => dbUpsertAsn st e.1 (metaToPatch e.2) now) s1
  ((records.map (fun r => r.measurement_id)).dedup).foldl
    (fun st mid =>
      if remainingUnenrichedHops st mid = 0 then markMeasurementEnriched st mid now else st)
    s2

/-- `run_once(pool)` of the enricher: fetch up to 200 unenriched hops and
process them (no records means no state change). -/
def enricherRunOnce (oracle : EnrichOracle) (s : PgState) (now : ℚ) : PgState :=
  let records := fetchUnenrichedHops s 200
  if records = [] then s else processBatch oracle s records now

/-- `process_measurement(pool, driver, measurement_id, observed_at)` of the
graph builder: fetch the ASN-bearing hops, merge the canonicalized edges
into the graph store (a no-op when there are no hops or no edges), and mark
the measurement graph-built — on every path. -/
def graphProcessMeasurementOp (s : PgState) (mid : Nat) (observed_at now : ℚ) : PgState :=
  let hops := fetchHopsForMeasurement s mid
  markMeasurementGraphBuilt
    { s with graph := graphProcessMeasurement s.graph hops observed_at } mid now

/-- `run_once(pool, driver)` of the graph builder: process every measurement
returned by `fetch_measurements_for_graph` in order. -/
def graphRunOnce (s : PgState) (now : ℚ) : PgState :=
  (fetchMeasurementsForGraph s 50).foldl
    (fun st row => graphProcessMeasurementOp st row.id row.started_at now) s

/-- One observable pipeline operation against the store: a worker
measurement insert, a target touch from either touch helper (DNS collection,
ASN expansion, remeasurement), an enricher batch, or a graph-builder run. -/
inductive PgStep : PgState → PgState → Prop
  | insertMeasurement (s : PgState) (target_ip : String) (started_at : ℚ)
      (completed_at : Option ℚ) (success : Bool)
      (hopsPayload : List (Nat × Option String × Option ℚ)) (source : Option String) :
      PgStep s (insertMeasurementOp s target_ip started_at completed_at success
        hopsPayload source).2
  | touch (s : PgState) (target_ip source : String) (seen_at : ℚ) :
      PgStep s (touchTargetOp s target_ip source seen_at)
  | touchDns (s : PgState) (target_ip source : String) (seen_at : ℚ) :
      PgStep s (touchTargetDnsOp s target_ip source seen_at)
  | enrich (s : PgState) (oracle : EnrichOracle) (now : ℚ) :
      PgStep s (enricherRunOnce oracle s now)
  | graph (s : PgState) (now : ℚ) :
      PgStep s (graphRunOnce s now)

/-- States reachable by the pipeline from an empty store. -/
inductive PgReachable : PgState → Prop
  | init : PgReachable initState
  | step (s s' : PgState) : PgReachable s → PgStep s s' → PgReachable s'

/-! ### Derived definitions used by the statements and proofs -/

/-- Pointwise form of one `update_hop_enrichment` call issued for record `r`:
the function applied to every row of `hops` by the `WHERE id = $1` update
(or the identity when the hop's lookups raised). -/
def hopUpdateFn (oracle : EnrichOracle) (r : Hop) (h : Hop) : Hop :=
  match oracle r.hop_ip with
  | none => h
  | some (asn_info, asn_org, ext) =>
    if h.id = r.id then
      { h with asn := asn_info.asn, prefixVal := asn_info.prefixVal,
               org_name := mergeOrgName asn_org ext asn_info,
               country_code := mergeCountry asn_org ext asn_info }
    else h

/-- The composite effect on one `hops` row of the per-record updates a batch
issues, in record order. -/
def chainUpdate (oracle : EnrichOracle) (records : List Hop) (h : Hop) : Hop :=
  records.foldl (fun h r => hopUpdateFn oracle r h) h

/-- `last_seen` of the (first) target row holding a given IP. -/
def lastSeenOf (s : PgState) (ip : String) : Option ℚ :=
  (s.targets.find? (fun t => t.target_ip = ip)).bind (fun t => t.last_seen)

/-- Order on optional timestamps: a null `last_seen` is below everything. -/
def optTimeLe : Option ℚ → Option ℚ → Prop
  | none, _ => True
  | some _, none => False
  | some a, some b => a ≤ b

/-- `remaining_unenriched_hops(s, mid) = 0`, spelled as a quantified
statement over the rows. -/
def NoUnenriched (s : PgState) (mid : Nat) : Prop :=
  ∀ h ∈ s.hops, h.measurement_id = mid → h.asn = none → h.hop_ip = none

/-- Structural well-formedness of the store: primary keys are below the
fresh-id counters and unique, and hops reference allocated measurement
ids. -/
def StateWF (s : PgState) : Prop :=
  (∀ m ∈ s.measurements, m.id < s.nextMeasurementId) ∧
  (s.measurements.map (fun m => m.id)).Nodup ∧
  (∀ h ∈ s.hops, h.id < s.nextHopId) ∧
  (s.hops.map (fun h => h.id)).Nodup ∧
  (∀ h ∈ s.hops, h.measurement_id < s.nextMeasurementId)

/-- The pipeline invariant: an enriched measurement has no unenriched hops
left; `graph_built` implies `enriched`; a failed measurement never gains a
status flag; hops of failed measurements keep a null ASN. -/
def PipeInv (s : PgState) : Prop :=
  StateWF s ∧
  (∀ m ∈ s.measurements, m.enriched = true → NoUnenriched s m.id) ∧
  (∀ m ∈ s.measurements, m.graph_built = true → m.enriched = true) ∧
  (∀ m ∈ s.measurements, m.success = false → m.enriched = false ∧ m.graph_built = false) ∧
  (∀ h ∈ s.hops, ∀ m ∈ s.measurements, m.id = h.measurement_id → m.success = false →
    h.asn = none)

/-- A successful measurement whose only hop is a `* * *` timeout row
(null IP): `remaining_unenriched_hops` is zero from creation but the
enricher never selects it. -/
def allStarState : PgState :=
  (insertMeasurementOp initState "1.1.1.1" 0 (some 1) true [(1, none, none)] (some "api")).2

/-- A lookup oracle resolving every IP to AS13335 ("Cloudflare, Inc.", US)
from the primary source only. -/
def exOracle : EnrichOracle :=
  fun _ => some ({ asn := some 13335, prefixVal := none,
                   org_name := some "Cloudflare, Inc.", country := some "US" }, none, none)

/-- A lookup oracle whose every call raises (`gather` returns exceptions). -/
def failOracle : EnrichOracle := fun _ => none

/-- A successful two-hop measurement against 1.1.1.1. -/
def twoHopState : PgState :=
  (insertMeasurementOp initState "1.1.1.1" 0 (some 1) true
    [(1, some "10.0.0.1", some 1), (2, some "1.1.1.1", some 5)] (some "api")).2

/-- `twoHopState` after one enricher batch under `exOracle`. -/
def enrichedState : PgState := enricherRunOnce exOracle twoHopState 7

/-- `enrichedState` after one graph-builder run: a single-AS path, so zero
edges and `graph_built = true`. -/
def builtState : PgState := graphRunOnce enrichedState 9

/-- A failed measurement (`success = false`) with an IP-bearing hop. -/
def failedState : PgState :=
  (insertMeasurementOp initState "5.5.5.5" 2 (some 3) false
    [(1, some "10.0.0.7", some 2)] (some "dns")).2

/-- The empty `ExternalAsnInfo` returned on every ip-api failure path. -/
def emptyIpApiInfo : ExternalAsnInfo := { source := some "ip-api" }

/-- The `ip_api` circuit breaker as configured in `external_sources.py`
(`failure_threshold=5, recovery_time=120.0`). -/
def ipApiBreaker0 : CircuitBreaker :=
  { failure_threshold := 5, recovery_time := 120, half_open_max_calls := 1,
    failures := 0, last_failure_time := 0, state := CircuitState.closed,
    half_open_calls := 0 }

/-- A fresh process state for `lookup_ip_api`: empty cache, closed breaker,
empty `{45, 60 s}` limiter, default one-hour TTL. -/
def ipApiState0 : IpApiState :=
  { cache := [], breaker := ipApiBreaker0,
    limiter := { max_requests := 45, window_seconds := 60, tokens := [] },
    cache_ttl := 3600 }

/-- The measurement row of `enrichedState` after `process_measurement` runs
on it at `observed_at = 0`, `now = 9`. -/
def builtMeasurement : Measurement :=
  { id := 0, target_id := 0, started_at := 0, completed_at := some 1,
    success := true, enriched := true, graph_built := true,
    enriched_at := some 7, graph_built_at := some 9 }

/-- A two-AS path (AS64500 then AS13335) projected into an empty graph
store (spec scenario 2). -/
def twoAsHops : List HopRow :=
  [{ hop_number := 1, asn := some 64500, org_name := none, country_code := none,
     rtt_ms := some 2 },
   { hop_number := 2, asn := some 13335, org_name := none, country_code := none,
     rtt_ms := some 5 }]

/-- The graph store after projecting `twoAsHops` once. -/
def dbEx : GraphDB := graphProcessMeasurement [] twoAsHops 0

/-- Pi-hole v6 rows for spec scenario 5: cursor at 300, times 250/301/350. -/
def exV6Rows : List V6Row :=
  [{ time := some 250, domain := "a.example", client_ip := none, qtype := none },
   { time := some 301, domain := "b.example", client_ip := none, qtype := none },
   { time := some 350, domain := "c.example", client_ip := none, qtype := none }]

/-- The same rows in the v5 array dialect. -/
def exV5Rows : List (Option V5Row) :=
  [some { time := 250, domain := "a.example", client_ip := none, qtype := none },
   none,
   some { time := 301, domain := "b.example", client_ip := none, qtype := none },
   some { time := 350, domain := "c.example", client_ip := none, qtype := none }]

/-- A fully populated ASN row, for exercising `upsert_asn`. -/
def exAsnRecord : AsnRecord :=
  { asn := 13335, org_name := some "Cloudflare, Inc.", country_code := some "US",
    source := "peeringdb", peeringdb_id := some 4224, facility_count := some 100,
    peering_policy := some "Open", traffic_levels := some "100+ Tbps",
    irr_as_set := some "AS-CLOUDFLARE", last_seen := some 10, updated_at := some 10 }

/-- The all-null metadata patch (`source` keeps its `"cymru"` default). -/
def emptyPatch : AsnPatch := {}

/-- The default breaker (`failure_threshold=5, recovery_time=60`) after five
failures recorded at `t = 0`. -/
def cbTripped : CircuitBreaker := cbRecordFailures ({} : CircuitBreaker) [0, 0, 0, 0, 0]

/-- `cbTripped` probed once by `is_open()` at `t = 60`: the probe that moves
it to HALF_OPEN. -/
def cbProbed : CircuitBreaker := (cbIsOpen cbTripped 60).2

/-- A numeric RTT token `whole[.frac]` as traceroute prints it. -/
structure RttTok where
  intDigits : List Char
  fracDigits : Option (List Char)
deriving DecidableEq, Repr

/-- The characters of a numeric RTT token. -/
def rttTokChars (r : RttTok) : List Char :=
  r.intDigits ++ (match r.fracDigits with | none => [] | some f => '.' :: f)

/-- Decimal value of a numeric RTT token. -/
def rttTokVal (r : RttTok) : ℚ :=
  (natOfDigits r.intDigits : ℚ) +
    match r.fracDigits with
    | none => 0
    | some f => (natOfDigits f : ℚ) / (10 ^ f.length : ℚ)

/-- Well-formed numeric token: a non-empty run of digits, optionally
followed by a digit-only fraction. -/
def WfRttTok (r : RttTok) : Prop :=
  r.intDigits ≠ [] ∧ (∀ c ∈ r.intDigits, c.isDigit = true) ∧
  ∀ f, r.fracDigits = some f → ∀ c ∈ f, c.isDigit = true

/-- An optional probe slot of the claim's line grammar: a number or `*`. -/
inductive RttSlot
  | num (r : RttTok)
  | star
deriving DecidableEq, Repr

/-- The characters of a probe slot. -/
def slotChars : RttSlot → List Char
  | RttSlot.num r => rttTokChars r
  | RttSlot.star => ['*']

/-- Well-formedness of a probe slot. -/
def WfSlot : RttSlot → Prop
  | RttSlot.num r => WfRttTok r
  | RttSlot.star => True

/-- The non-`*` values contributed by a probe slot. -/
def slotVals : RttSlot → List ℚ
  | RttSlot.num r => [rttTokVal r]
  | RttSlot.star => []

/-- The claim's per-hop line `N IP r1 ms [r2 ms [r3 ms]]`, one space between
fields. -/
def renderHopLine (nds ip : List Char) (r1 : RttTok)
    (r23 : Option (RttSlot × Option RttSlot)) : List Char :=
  nds ++ ' ' :: ip ++ ' ' :: rttTokChars r1 ++ ' ' :: 'm' :: 's' ::
    (match r23 with
     | none => []
     | some (s2, os3) =>
       ' ' :: slotChars s2 ++ ' ' :: 'm' :: 's' ::
         (match os3 with
          | none => []
          | some s3 => ' ' :: slotChars s3 ++ [' ', 'm', 's']))

/-- The claim's timeout line `N * * *`. -/
def renderStarLine (nds : List Char) : List Char :=
  nds ++ [' ', '*', ' ', '*', ' ', '*']

/-- The non-`*` RTT values of a rendered line, in print order. -/
def lineVals (r1 : RttTok) (r23 : Option (RttSlot × Option RttSlot)) : List ℚ :=
  rttTokVal r1 ::
    (match r23 with
     | none => []
     | some (s2, os3) => slotVals s2 ++ (match os3 with
        | none => []
        | some s3 => slotVals s3))

/-- Arithmetic mean, `None` on the empty list (the spec's RTT rule). -/
def meanRtt (vals : List ℚ) : Option ℚ :=
  if vals = [] then none else some (vals.sum / (vals.length : ℚ))

/-- Well-formedness of the optional probe slots. -/
def WfSlots : Option (RttSlot × Option RttSlot) → Prop
  | none => True
  | some (s2, os3) => WfSlot s2 ∧ ∀ s3, os3 = some s3 → WfSlot s3

/-- A well-formed hop-number field: a non-empty digit run. -/
def WfDigits (nds : List Char) : Prop :=
  nds ≠ [] ∧ ∀ c ∈ nds, c.isDigit = true

/-- A well-formed IP field: non-empty, no whitespace, no `(`, no `*`. -/
def WfIpTok (ip : List Char) : Prop :=
  ip ≠ [] ∧ ∀ c ∈ ip, isSpacePy c = false ∧ c ≠ '(' ∧ c ≠ '*'

/-! ### General list lemmas -/

theorem mem_insertSorted {le : α → α → Bool} {x y : α} {l : List α} :
    x ∈ insertSorted le y l ↔ x = y ∨ x ∈ l := by
  induction l with
  | nil => simp [insertSorted]
  | cons z rest ih =>
    simp only [insertSorted]
    by_cases h : le y z
    · simp [h]
    · simp [h, ih]
      tauto

theorem mem_sortByLe {le : α → α → Bool} {x : α} {l : List α} :
    x ∈ sortByLe le l ↔ x ∈ l := by
  induction l with
  | nil => simp [sortByLe]
  | cons z rest ih =>
    simp only [sortByLe, List.foldr] at *
    rw [mem_insertSorted]
    simp [ih]

theorem nodup_map_mem_inj {f : α → β} {l : List α} (hn : (l.map f).Nodup)
    {a b : α} (ha : a ∈ l) (hb : b ∈ l) (hf : f a = f b) : a = b := by
  induction l with
  | nil => cases ha
  | cons x rest ih =>
    simp only [List.map_cons, List.nodup_cons] at hn
    rcases List.mem_cons.1 ha with rfl | ha' <;> rcases List.mem_cons.1 hb with rfl | hb'
    · rfl
    · exact absurd (hf ▸ List.mem_map_of_mem f hb') hn.1
    · exact absurd (hf ▸ List.mem_map_of_mem f ha') hn.1
    · exact ih hn.2 ha' hb'

theorem find?_key_eq_some {key : α → β} [DecidableEq β] {l : List α}
    (hn : (l.map key).Nodup) {a : α} (ha : a ∈ l) :
    l.find? (fun x => key x = key a) = some a := by
  induction l with
  | nil => cases ha
  | cons x rest ih =>
    simp only [List.map_cons, List.nodup_cons] at hn
    rcases List.mem_cons.1 ha with rfl | ha'
    · simp [List.find?]
    · have hne : key x ≠ key a := by
        intro h
        exact hn.1 (h ▸ List.mem_map_of_mem key ha')
      rw [List.find?_cons_of_neg _ (by simpa using hne)]
      exact ih hn.2 ha'

/-! ### C2: edge construction lemmas -/

theorem buildEdgesAux_spec (t : ℚ) (hops : List HopRow) :
    ∀ p : HopNode,
      buildEdgesAux t (some p) hops =
        (consecutivePairs (p :: specEnrichedNodes hops)).filterMap (specPairEdge t) := by
  induction hops with
  | nil => intro p; rfl
  | cons h rest ih =>
    intro p
    cases hasn : h.asn with
    | none =>
      have hsp : specEnrichedNodes (h :: rest) = specEnrichedNodes rest := by
        simp [specEnrichedNodes, hasn]
      have hbe : buildEdgesAux t (some p) (h :: rest) = buildEdgesAux t (some p) rest := by
        simp [buildEdgesAux, hasn]
      rw [hbe, hsp]
      exact ih p
    | some a =>
      have hsp : specEnrichedNodes (h :: rest) = hopNodeOf h a :: specEnrichedNodes rest := by
        simp [specEnrichedNodes, hasn]
      rw [hsp]
      rw [show consecutivePairs (p :: hopNodeOf h a :: specEnrichedNodes rest) =
        (p, hopNodeOf h a) :: consecutivePairs (hopNodeOf h a :: specEnrichedNodes rest) from rfl]
      rw [List.filterMap_cons]
      by_cases hne : p.asn ≠ (hopNodeOf h a).asn
      · have hbe : buildEdgesAux t (some p) (h :: rest) =
            { a := p, b := hopNodeOf h a, observed_at := t,
              rtt_ms := edgeRtt p.rtt_ms (hopNodeOf h a).rtt_ms } ::
            buildEdgesAux t (some (hopNodeOf h a)) rest := by
          simp [buildEdgesAux, hasn, hne]
        rw [hbe]
        simp only [specPairEdge, if_pos hne]
        rw [ih (hopNodeOf h a)]
      · have hbe : buildEdgesAux t (some p) (h :: rest) =
            buildEdgesAux t (some (hopNodeOf h a)) rest := by
          simp [buildEdgesAux, hasn, hne]
        rw [hbe]
        simp only [specPairEdge, if_neg hne]
        exact ih (hopNodeOf h a)

theorem buildEdges_eq_spec (hops : List HopRow) (t : ℚ) :
    buildEdges hops t = specRouteEdges hops t := by
  unfold buildEdges specRouteEdges
  induction hops with
  | nil => rfl
  | cons h rest ih =>
    cases hasn : h.asn with
    | none =>
      have hsp : specEnrichedNodes (h :: rest) = specEnrichedNodes rest := by
        simp [specEnrichedNodes, hasn]
      have hbe : buildEdgesAux t none (h :: rest) = buildEdgesAux t none rest := by
        simp [buildEdgesAux, hasn]
      rw [hbe, hsp]
      exact ih
    | some a =>
      have hsp : specEnrichedNodes (h :: rest) = hopNodeOf h a :: specEnrichedNodes rest := by
        simp [specEnrichedNodes, hasn]
      have hbe : buildEdgesAux t none (h :: rest) =
          buildEdgesAux t (some (hopNodeOf h a)) rest := by
        simp [buildEdgesAux, hasn]
      rw [hbe, hsp]
      exact buildEdgesAux_spec t rest (hopNodeOf h a)

theorem mem_consecutivePairs {pc : HopNode × HopNode} :
    ∀ {l : List HopNode}, pc ∈ consecutivePairs l → pc.1 ∈ l ∧ pc.2 ∈ l := by
  intro l
  induction l with
  | nil => intro h; cases h
  | cons x rest ih =>
    cases rest with
    | nil => intro h; cases h
    | cons y rest' =>
      intro h
      rcases List.mem_cons.1 h with rfl | h'
      · exact ⟨List.mem_cons_self _ _, List.mem_cons_of_mem _ (List.mem_cons_self _ _)⟩
      · have := ih h'
        exact ⟨List.mem_cons_of_mem _ this.1, List.mem_cons_of_mem _ this.2⟩

theorem mem_specEnrichedNodes_asn {hops : List HopRow} {n : HopNode} {a : Nat}
    (hall : ∀ h ∈ hops, h.asn = none ∨ h.asn = some a)
    (hn : n ∈ specEnrichedNodes hops) : n.asn = a := by
  rcases List.mem_filterMap.1 hn with ⟨h, hmem, hmap⟩
  rcases hall h hmem with h0 | h0 <;> rw [h0] at hmap
  · cases hmap
  · simp only [Option.map_some'] at hmap
    cases hmap
    rfl

/-- Single-AS paths project to zero edges. -/
theorem buildEdges_single_as {hops : List HopRow} {a : Nat} (t : ℚ)
    (hall : ∀ h ∈ hops, h.asn = none ∨ h.asn = some a) :
    buildEdges hops t = [] := by
  rw [buildEdges_eq_spec]
  unfold specRouteEdges
  rw [List.filterMap_eq_nil_iff]
  intro pc hpc
  have h1 := (mem_consecutivePairs hpc).1
  have h2 := (mem_consecutivePairs hpc).2
  have e1 := mem_specEnrichedNodes_asn hall h1
  have e2 := mem_specEnrichedNodes_asn hall h2
  unfold specPairEdge
  rw [if_neg]
  simp [e1, e2]

/-- Every emitted edge connects two distinct ASNs. -/
theorem buildEdges_asn_ne {hops : List HopRow} {t : ℚ} {e : EdgeModel}
    (he : e ∈ buildEdges hops t) : e.a.asn ≠ e.b.asn := by
  rw [buildEdges_eq_spec] at he
  unfold specRouteEdges at he
  rcases List.mem_filterMap.1 he with ⟨pc, _, hmap⟩
  unfold specPairEdge at hmap
  by_cases hne : pc.1.asn ≠ pc.2.asn
  · rw [if_pos hne] at hmap
    cases hmap
    exact hne
  · rw [if_neg hne] at hmap
    cases hmap

/-- `process_measurement` flags the measurement as graph-built on every
path. -/
theorem graphProcessMeasurementOp_marks (s : PgState) (mid : Nat) (t now : ℚ) :
    ∀ m' ∈ (graphProcessMeasurementOp s mid t now).measurements,
      m'.id = mid → m'.graph_built = true := by
  intro m' hm' hid
  unfold graphProcessMeasurementOp markMeasurementGraphBuilt at hm'
  simp only [List.mem_map] at hm'
  rcases hm' with ⟨m, _, rfl⟩
  by_cases h : m.id = mid
  · simp [h]
  · simp only [if_neg h]
    simp only [if_neg h] at hid
    exact absurd hid h

/-- C2: for every measurement, the projector walks the ASN-bearing hops in
order and emits exactly one edge per consecutive pair of distinct ASNs, with
edge rtt the maximum of the non-null hop RTTs (null when both are null); a
path within a single AS yields zero edges, and `process_measurement` still
flags the measurement `graph_built = true`. -/
theorem claim_C2_graph_projection :
    (∀ (hops : List HopRow) (t : ℚ), buildEdges hops t = specRouteEdges hops t) ∧
    (∀ (hops : List HopRow) (t : ℚ) (a : Nat),
      (∀ h ∈ hops, h.asn = none ∨ h.asn = some a) → buildEdges hops t = []) ∧
    (∀ (s : PgState) (mid : Nat) (t now : ℚ),
      ∀ m' ∈ (graphProcessMeasurementOp s mid t now).measurements,
        m'.id = mid → m'.graph_built = true) :=
  ⟨buildEdges_eq_spec,
   fun _ t _ hall => buildEdges_single_as t hall,
   graphProcessMeasurementOp_marks⟩

/-- Witness for C2 at spec scenario 1: the fully enriched single-AS
(AS13335) measurement projects zero edges, and its row carries
`graph_built = true` after `process_measurement`. -/
theorem claim_C2_graph_projection_witness :
    buildEdges (fetchHopsForMeasurement enrichedState 0) 0 = [] ∧
    builtMeasurement ∈ (graphProcessMeasurementOp enrichedState 0 0 9).measurements ∧
    builtMeasurement.graph_built = true :=
  ⟨claim_C2_graph_projection.2.1 _ 0 13335 (by decide),
   by decide,
   claim_C2_graph_projection.2.2 enrichedState 0 0 9 builtMeasurement (by decide) (by decide)⟩

/-! ### C3: graph store invariants -/

theorem mergeStats_minmax {s : EdgeStats} {rtt : Option ℚ} {ts : ℚ}
    (h : ∀ m M, s.min_rtt = some m → s.max_rtt = some M → m ≤ M) :
    ∀ m M, (mergeStats s rtt ts).min_rtt = some m →
      (mergeStats s rtt ts).max_rtt = some M → m ≤ M := by
  intro m M hm hM
  unfold mergeStats at hm hM
  cases hmin : s.min_rtt with
  | none => simp only [hmin] at hm; cases rtt <;> simp at hm
  | some m0 =>
    cases hmax : s.max_rtt with
    | none => simp only [hmax] at hM; cases rtt <;> simp at hM
    | some M0 =>
      have hle := h m0 M0 hmin hmax
      cases hr : rtt with
      | none =>
        simp only [hmin, hmax, hr] at hm hM
        cases hm; cases hM
        exact hle
      | some r =>
        simp only [hmin, hmax, hr] at hm hM
        cases hm; cases hM
        exact le_trans (min_le_left _ _) (le_trans hle (le_max_left _ _))

theorem canonEdge_lt {e : EdgeModel} (h : e.a.asn ≠ e.b.asn) :
    (canonEdge e).a.asn < (canonEdge e).b.asn := by
  unfold canonEdge
  by_cases hgt : e.a.asn > e.b.asn
  · rw [if_pos hgt]; exact hgt
  · rw [if_neg hgt]
    exact lt_of_le_of_ne (le_of_not_lt hgt) h

theorem graphSet_keys (db : GraphDB) (k : Nat × Nat) (v : EdgeStats) :
    (graphSet db k v).map (·.1) = db.map (·.1) := by
  unfold graphSet
  rw [List.map_map]
  apply List.map_congr_left
  intro e _
  by_cases h : e.1 = k <;> simp [h]

theorem mergeEdge_of_none {db : GraphDB} {e : EdgeModel}
    (h : graphFind db (e.a.asn, e.b.asn) = none) :
    mergeEdge db e = db ++ [((e.a.asn, e.b.asn),
      { observed_count := 1, min_rtt := e.rtt_ms, max_rtt := e.rtt_ms,
        last_seen := e.observed_at })] := by
  simp only [mergeEdge, h]

theorem mergeEdge_of_some {db : GraphDB} {e : EdgeModel} {st : EdgeStats}
    (h : graphFind db (e.a.asn, e.b.asn) = some st) :
    mergeEdge db e = graphSet db (e.a.asn, e.b.asn)
      (mergeStats st e.rtt_ms e.observed_at) := by
  simp only [mergeEdge, h]

theorem mergeEdge_inv {db : GraphDB} {e : EdgeModel} (hinv : GraphInv db)
    (hlt : e.a.asn < e.b.asn) : GraphInv (mergeEdge db e) := by
  obtain ⟨hnd, hent⟩ := hinv
  cases hfind : graphFind db (e.a.asn, e.b.asn) with
  | none =>
    rw [mergeEdge_of_none hfind]
    constructor
    · rw [List.map_append]
      rw [List.nodup_append]
      refine ⟨hnd, List.nodup_singleton _, ?_⟩
      intro k hk hk'
      simp only [List.map_cons, List.map_nil, List.mem_singleton] at hk'
      subst hk'
      rcases List.mem_map.1 hk with ⟨x, hx, hxk⟩
      unfold graphFind at hfind
      rw [Option.map_eq_none'] at hfind
      have := List.find?_eq_none.1 hfind x hx
      simp only [decide_eq_true_eq] at this
      exact this hxk
    · intro x hx
      rcases List.mem_append.1 hx with hx' | hx'
      · exact hent x hx'
      · simp only [List.mem_singleton] at hx'
        subst hx'
        refine ⟨hlt, le_refl 1, ?_⟩
        intro m M hm hM
        simp only at hm hM
        rw [hm] at hM
        cases hM
        exact le_refl m
  | some st =>
    have hmem : ∃ x ∈ db, x.1 = (e.a.asn, e.b.asn) ∧ x.2 = st := by
      unfold graphFind at hfind
      rcases Option.map_eq_some'.1 hfind with ⟨x, hx, hx2⟩
      have hxmem := List.mem_of_find?_eq_some hx
      have hxkey := List.find?_some hx
      simp only [decide_eq_true_eq] at hxkey
      exact ⟨x, hxmem, hxkey, hx2⟩
    rw [mergeEdge_of_some hfind]
    constructor
    · rw [graphSet_keys]; exact hnd
    · intro x hx
      unfold graphSet at hx
      rcases List.mem_map.1 hx with ⟨y, hy, hyx⟩
      by_cases hk : y.1 = (e.a.asn, e.b.asn)
      · rw [if_pos hk] at hyx
        subst hyx
        refine ⟨hlt, ?_, ?_⟩
        · exact Nat.le_add_left 1 _
        · rcases hmem with ⟨z, hz, hzk, hzv⟩
          have hyz : y = z := by
            apply nodup_map_mem_inj hnd hy hz
            rw [hk, hzk]
          apply mergeStats_minmax
          have := (hent z hz).2.2
          rw [hzv] at this
          exact this
      · rw [if_neg hk] at hyx
        subst hyx
        exact hent y hy

theorem foldl_mergeEdge_inv {db : GraphDB} {edges : List EdgeModel}
    (hinv : GraphInv db) (hne : ∀ e ∈ edges, e.a.asn ≠ e.b.asn) :
    GraphInv (edges.foldl (fun d e => mergeEdge d (canonEdge e)) db) := by
  induction edges generalizing db with
  | nil => exact hinv
  | cons e rest ih =>
    simp only [List.foldl_cons]
    apply ih
    · exact mergeEdge_inv hinv (canonEdge_lt (hne e (List.mem_cons_self _ _)))
    · intro x hx
      exact hne x (List.mem_cons_of_mem _ hx)

theorem graphProcessMeasurement_inv {db : GraphDB} (hinv : GraphInv db)
    (hops : List HopRow) (t : ℚ) : GraphInv (graphProcessMeasurement db hops t) :=
  foldl_mergeEdge_inv hinv (fun _ he => buildEdges_asn_ne he)

theorem graphReachable_inv {db : GraphDB} (h : GraphReachable db) : GraphInv db := by
  induction h with
  | init => exact ⟨List.nodup_nil, fun e he => absurd he (List.not_mem_nil e)⟩
  | step db hops t _ ih => exact graphProcessMeasurement_inv ih hops t

theorem countP_unordered_pair_le_one {db : GraphDB}
    (hnd : (db.map (·.1)).Nodup) (hc : ∀ x ∈ db, x.1.1 < x.1.2) (a b : Nat) :
    db.countP (fun x => x.1 = (a, b) ∨ x.1 = (b, a)) ≤ 1 := by
  induction db with
  | nil => simp
  | cons x rest ih =>
    simp only [List.map_cons, List.nodup_cons] at hnd
    have hcrest : ∀ y ∈ rest, y.1.1 < y.1.2 :=
      fun y hy => hc y (List.mem_cons_of_mem _ hy)
    rw [List.countP_cons]
    by_cases hm : x.1 = (a, b) ∨ x.1 = (b, a)
    · have hzero : rest.countP (fun y => y.1 = (a, b) ∨ y.1 = (b, a)) = 0 := by
        rw [List.countP_eq_zero]
        intro y hy
        simp only [decide_eq_true_eq]
        intro hym
        have hykey : y.1 = x.1 := by
          have hxlt := hc x (List.mem_cons_self _ _)
          have hylt := hcrest y hy
          rcases hm with hx1 | hx1 <;> rcases hym with hy1 | hy1 <;>
            rw [hx1, hy1] <;> rw [hx1] at hxlt <;> rw [hy1] at hylt <;>
            first
            | rfl
            | (exact absurd hylt (by simp only at hxlt ⊢; omega))
        exact hnd.1 (hykey ▸ List.mem_map_of_mem (·.1) hy)
      rw [hzero]
      simp [hm]
    · rw [if_neg (by simpa using hm)]
      simpa using ih hnd.2 hcrest

theorem graphFind_graphSet {db : GraphDB} {k : Nat × Nat} {v : EdgeStats}
    (h : ∃ x ∈ db, x.1 = k) : graphFind (graphSet db k v) k = some v := by
  induction db with
  | nil => rcases h with ⟨x, hx, _⟩; cases hx
  | cons y rest ih =>
    unfold graphFind graphSet
    by_cases hk : y.1 = k
    · simp only [List.map_cons, if_pos hk]
      rw [List.find?_cons_of_pos _ (by simp)]
      rfl
    · simp only [List.map_cons, if_neg hk]
      rw [List.find?_cons_of_neg _ (by simpa using hk)]
      rcases h with ⟨x, hx, hxk⟩
      rcases List.mem_cons.1 hx with rfl | hx'
      · exact absurd hxk hk
      · exact ih ⟨x, hx', hxk⟩

/-- C3: every `ROUTE` edge is stored under the canonically ordered key
(`min`, `max`), so each unordered ASN pair has at most one edge; creation
sets `observed_count = 1` and `min_rtt = max_rtt = rtt`; every
re-observation increments `observed_count` and tightens `min_rtt`/`max_rtt`
with `min`/`max`, a null rtt leaving both untouched; hence
`observed_count ≥ 1` and `min_rtt ≤ max_rtt` whenever both are non-null. -/
theorem claim_C3_route_edges :
    (∀ db, GraphReachable db → ∀ a b : Nat, ¬ a < b → graphFind db (a, b) = none) ∧
    (∀ db, GraphReachable db → ∀ a b : Nat,
      db.countP (fun x => x.1 = (a, b) ∨ x.1 = (b, a)) ≤ 1) ∧
    (∀ db, GraphReachable db → ∀ x ∈ db,
      1 ≤ x.2.observed_count ∧
        ∀ m M, x.2.min_rtt = some m → x.2.max_rtt = some M → m ≤ M) ∧
    (∀ (db : GraphDB) (e : EdgeModel), graphFind db (e.a.asn, e.b.asn) = none →
      graphFind (mergeEdge db e) (e.a.asn, e.b.asn) =
        some { observed_count := 1, min_rtt := e.rtt_ms, max_rtt := e.rtt_ms,
               last_seen := e.observed_at }) ∧
    (∀ (db : GraphDB) (e : EdgeModel) (st : EdgeStats),
      graphFind db (e.a.asn, e.b.asn) = some st →
      graphFind (mergeEdge db e) (e.a.asn, e.b.asn) =
        some (mergeStats st e.rtt_ms e.observed_at)) ∧
    (∀ (st : EdgeStats) (r : Option ℚ) (t : ℚ),
      (mergeStats st r t).observed_count = st.observed_count + 1 ∧
      (r = none → (mergeStats st r t).min_rtt = st.min_rtt ∧
        (mergeStats st r t).max_rtt = st.max_rtt)) := by
  refine ⟨?_, ?_, ?_, ?_, ?_, ?_⟩
  · intro db h a b hab
    have hinv := graphReachable_inv h
    unfold graphFind
    rw [Option.map_eq_none']
    rw [List.find?_eq_none]
    intro x hx
    simp only [decide_eq_true_eq]
    intro hk
    have hlt := (hinv.2 x hx).1
    rw [hk] at hlt
    exact hab hlt
  · intro db h a b
    have hinv := graphReachable_inv h
    exact countP_unordered_pair_le_one hinv.1 (fun x hx => (hinv.2 x hx).1) a b
  · intro db h x hx
    have hinv := graphReachable_inv h
    exact ⟨(hinv.2 x hx).2.1, (hinv.2 x hx).2.2⟩
  · intro db e hnone
    rw [mergeEdge_of_none hnone]
    unfold graphFind at hnone ⊢
    rw [Option.map_eq_none'] at hnone
    rw [List.find?_append]
    rw [hnone]
    simp [List.find?]
  · intro db e st hsome
    rw [mergeEdge_of_some hsome]
    have hex : ∃ x ∈ db, x.1 = (e.a.asn, e.b.asn) := by
      unfold graphFind at hsome
      rcases Option.map_eq_some'.1 hsome with ⟨x, hx, _⟩
      exact ⟨x, List.mem_of_find?_eq_some hx, by simpa using List.find?_some hx⟩
    exact graphFind_graphSet hex
  · intro st r t
    refine ⟨rfl, ?_⟩
    intro hr
    subst hr
    unfold mergeStats
    constructor <;> (cases st.min_rtt <;> cases st.max_rtt <;> rfl)

/-- Witness for C3 at spec scenario 2: projecting a two-AS path
(`64500 → 13335`) into an empty store yields the single canonical edge
`(13335, 64500)` with `observed_count = 1` and `min = max = 5`. -/
theorem claim_C3_route_edges_witness :
    GraphReachable dbEx ∧
    dbEx.countP (fun x => x.1 = (13335, 64500) ∨ x.1 = (64500, 13335)) ≤ 1 ∧
    graphFind dbEx (64500, 13335) = none ∧
    graphFind dbEx (13335, 64500) =
      some { observed_count := 1, min_rtt := some 5, max_rtt := some 5, last_seen := 0 } := by
  have hreach : GraphReachable dbEx :=
    GraphReachable.step [] twoAsHops 0 GraphReachable.init
  refine ⟨hreach, claim_C3_route_edges.2.1 dbEx hreach 13335 64500, ?_, by decide⟩
  exact claim_C3_route_edges.1 dbEx hreach 64500 13335 (by decide)

/-! ### C5: circuit breaker behaviour at the failing input -/

/-- C5: five consecutive failures at `t = 0` trip the default breaker
(threshold 5, recovery 60 s); `is_open()` is still true at `t = 30`; at
`t = 60` the breaker moves to HALF_OPEN — but then every further `is_open()`
call also returns false (here shown twice in a row with no success or
failure recorded in between), although `half_open_max_calls = 1`: the
`_half_open_calls` counter is never incremented anywhere, so HALF_OPEN
admits unlimited test calls, contradicting the claim (and the class's own
docstring).  The recorded-transition rules themselves hold: in HALF_OPEN a
success closes the breaker and zeroes the failure counter, a failure
re-opens it and resets the timer. -/
theorem claim_C5_circuit_breaker :
    cbTripped.state = CircuitState.opened ∧
    (cbIsOpen cbTripped 30).1 = true ∧
    (cbIsOpen cbTripped (119/2)).1 = true ∧
    (cbIsOpen cbTripped 60).1 = false ∧
    cbProbed.state = CircuitState.halfOpen ∧
    cbProbed.half_open_max_calls = 1 ∧
    (cbIsOpen cbProbed 61).1 = false ∧
    (cbIsOpen (cbIsOpen cbProbed 61).2 62).1 = false ∧
    (cbRecordSuccess cbProbed).state = CircuitState.closed ∧
    (cbRecordSuccess cbProbed).failures = 0 ∧
    (cbRecordFailure cbProbed 61).state = CircuitState.opened ∧
    (cbRecordFailure cbProbed 61).last_failure_time = 61 := by
  decide

/-! ### C7: Pi-hole cursor lemmas -/

theorem foldl_max_init_le (l : List DNSQueryRec) :
    ∀ a : ℚ, a ≤ l.foldl (fun acc x => max acc x.timestamp) a := by
  induction l with
  | nil => intro a; exact le_refl a
  | cons x rest ih =>
    intro a
    exact le_trans (le_max_left a x.timestamp) (ih _)

theorem foldl_max_mem_le (l : List DNSQueryRec) :
    ∀ (a : ℚ) (x : DNSQueryRec), x ∈ l →
      x.timestamp ≤ l.foldl (fun acc y => max acc y.timestamp) a := by
  induction l with
  | nil => intro a x hx; cases hx
  | cons y rest ih =>
    intro a x hx
    rcases List.mem_cons.1 hx with rfl | hx'
    · exact le_trans (le_max_right a x.timestamp) (foldl_max_init_le rest _)
    · exact ih _ x hx'

theorem foldl_max_attained (l : List DNSQueryRec) :
    ∀ a : ℚ, l.foldl (fun acc y => max acc y.timestamp) a = a ∨
      ∃ x ∈ l, l.foldl (fun acc y => max acc y.timestamp) a = x.timestamp := by
  induction l with
  | nil => intro a; exact Or.inl rfl
  | cons y rest ih =>
    intro a
    rcases ih (max a y.timestamp) with h | ⟨x, hx, hh⟩
    · rcases max_cases a y.timestamp with ⟨hm, _⟩ | ⟨hm, _⟩
      · exact Or.inl (by simpa [hm] using h)
      · exact Or.inr ⟨y, List.mem_cons_self _ _, by simpa [hm] using h⟩
    · exact Or.inr ⟨x, List.mem_cons_of_mem _ hx, hh⟩

theorem fetchV6Accept_mem {cursor : ℚ} :
    ∀ {rows : List V6Row} {q : DNSQueryRec},
      q ∈ fetchV6Accept cursor rows → cursor < q.timestamp := by
  intro rows
  induction rows with
  | nil => intro q hq; cases hq
  | cons r rest ih =>
    intro q hq
    unfold fetchV6Accept at hq
    split at hq
    · exact ih hq
    · split at hq
      · exact ih hq
      · split at hq
        · exact ih hq
        · rcases List.mem_cons.1 hq with rfl | hq'
          · rename_i hnle
            exact lt_of_not_le hnle
          · exact ih hq'

theorem fetchV5Accept_mem {cursor : ℚ} :
    ∀ {rows : List (Option V5Row)} {q : DNSQueryRec},
      q ∈ fetchV5Accept cursor rows → cursor < q.timestamp := by
  intro rows
  induction rows with
  | nil => intro q hq; cases hq
  | cons r rest ih =>
    intro q hq
    cases r with
    | none => exact ih hq
    | some r0 =>
      unfold fetchV5Accept at hq
      split at hq
      · exact ih hq
      · rcases List.mem_cons.1 hq with rfl | hq'
        · rename_i hnle
          exact lt_of_not_le hnle
        · exact ih hq'

theorem fetchV6_fst (cursor : ℚ) (rows : List V6Row) :
    (fetchV6 cursor rows).1 = fetchV6Accept cursor rows := by
  cases h : fetchV6Accept cursor rows <;> simp [fetchV6, h]

theorem fetchV6_snd_nil {cursor : ℚ} {rows : List V6Row}
    (h : fetchV6Accept cursor rows = []) : (fetchV6 cursor rows).2 = cursor := by
  simp [fetchV6, h]

theorem fetchV6_snd_cons {cursor : ℚ} {rows : List V6Row} {q : DNSQueryRec}
    {rest : List DNSQueryRec} (h : fetchV6Accept cursor rows = q :: rest) :
    (fetchV6 cursor rows).2 = maxTimestamp q rest := by
  simp [fetchV6, h]

theorem fetchV5_fst (cursor : ℚ) (rows : List (Option V5Row)) :
    (fetchV5 cursor rows).1 = fetchV5Accept cursor rows := by
  cases h : fetchV5Accept cursor rows <;> simp [fetchV5, h]

theorem fetchV5_snd_nil {cursor : ℚ} {rows : List (Option V5Row)}
    (h : fetchV5Accept cursor rows = []) : (fetchV5 cursor rows).2 = cursor := by
  simp [fetchV5, h]

theorem fetchV5_snd_cons {cursor : ℚ} {rows : List (Option V5Row)} {q : DNSQueryRec}
    {rest : List DNSQueryRec} (h : fetchV5Accept cursor rows = q :: rest) :
    (fetchV5 cursor rows).2 = maxTimestamp q rest := by
  simp [fetchV5, h]

/-- C7: neither Pi-hole fetch dialect re-emits a record at or below the
pre-run cursor, and after a run the cursor equals the maximum time of the
accepted records (unchanged when none were accepted), hence is monotonically
non-decreasing. -/
theorem claim_C7_pihole_cursor :
    (∀ (cursor : ℚ) (rows : List V6Row),
      (∀ q ∈ (fetchV6 cursor rows).1, cursor < q.timestamp) ∧
      (∀ q ∈ (fetchV6 cursor rows).1, q.timestamp ≤ (fetchV6 cursor rows).2) ∧
      ((fetchV6 cursor rows).1 = [] → (fetchV6 cursor rows).2 = cursor) ∧
      ((fetchV6 cursor rows).1 ≠ [] →
        ∃ q ∈ (fetchV6 cursor rows).1, (fetchV6 cursor rows).2 = q.timestamp) ∧
      cursor ≤ (fetchV6 cursor rows).2) ∧
    (∀ (cursor : ℚ) (rows : List (Option V5Row)),
      (∀ q ∈ (fetchV5 cursor rows).1, cursor < q.timestamp) ∧
      (∀ q ∈ (fetchV5 cursor rows).1, q.timestamp ≤ (fetchV5 cursor rows).2) ∧
      ((fetchV5 cursor rows).1 = [] → (fetchV5 cursor rows).2 = cursor) ∧
      ((fetchV5 cursor rows).1 ≠ [] →
        ∃ q ∈ (fetchV5 cursor rows).1, (fetchV5 cursor rows).2 = q.timestamp) ∧
      cursor ≤ (fetchV5 cursor rows).2) := by
  constructor
  · intro cursor rows
    cases hqs : fetchV6Accept cursor rows with
    | nil =>
      rw [fetchV6_fst, hqs, fetchV6_snd_nil hqs]
      exact ⟨fun q hq => absurd hq (List.not_mem_nil q),
        fun q hq => absurd hq (List.not_mem_nil q),
        fun _ => rfl, fun h => absurd rfl h, le_refl _⟩
    | cons q rest =>
      rw [fetchV6_fst, hqs, fetchV6_snd_cons hqs]
      refine ⟨?_, ?_, ?_, ?_, ?_⟩
      · intro x hx
        exact fetchV6Accept_mem (by rw [hqs]; exact hx)
      · intro x hx
        unfold maxTimestamp
        rcases List.mem_cons.1 hx with rfl | hx'
        · exact foldl_max_init_le rest _
        · exact foldl_max_mem_le rest _ x hx'
      · intro h; cases h
      · intro _
        unfold maxTimestamp
        rcases foldl_max_attained rest q.timestamp with h | ⟨x, hx, hh⟩
        · exact ⟨q, List.mem_cons_self _ _, h⟩
        · exact ⟨x, List.mem_cons_of_mem _ hx, hh⟩
      · have hq : cursor < q.timestamp :=
          fetchV6Accept_mem (by rw [hqs]; exact List.mem_cons_self q rest)
        exact le_trans (le_of_lt hq) (foldl_max_init_le rest _)
  · intro cursor rows
    cases hqs : fetchV5Accept cursor rows with
    | nil =>
      rw [fetchV5_fst, hqs, fetchV5_snd_nil hqs]
      exact ⟨fun q hq => absurd hq (List.not_mem_nil q),
        fun q hq => absurd hq (List.not_mem_nil q),
        fun _ => rfl, fun h => absurd rfl h, le_refl _⟩
    | cons q rest =>
      rw [fetchV5_fst, hqs, fetchV5_snd_cons hqs]
      refine ⟨?_, ?_, ?_, ?_, ?_⟩
      · intro x hx
        exact fetchV5Accept_mem (by rw [hqs]; exact hx)
      · intro x hx
        unfold maxTimestamp
        rcases List.mem_cons.1 hx with rfl | hx'
        · exact foldl_max_init_le rest _
        · exact foldl_max_mem_le rest _ x hx'
      · intro h; cases h
      · intro _
        unfold maxTimestamp
        rcases foldl_max_attained rest q.timestamp with h | ⟨x, hx, hh⟩
        · exact ⟨q, List.mem_cons_self _ _, h⟩
        · exact ⟨x, List.mem_cons_of_mem _ hx, hh⟩
      · have hq : cursor < q.timestamp :=
          fetchV5Accept_mem (by rw [hqs]; exact List.mem_cons_self q rest)
        exact le_trans (le_of_lt hq) (foldl_max_init_le rest _)

/-- Witness for C7 at spec scenario 5: from cursor 300, rows timed
250/301/350 yield exactly the 301 and 350 records and move the cursor to
350; the claim theorem certifies the 301 record sits above the old
cursor. -/
theorem claim_C7_pihole_cursor_witness :
    (fetchV6 300 exV6Rows).1 =
      [{ domain := "b.example", client_ip := none, qtype := none, timestamp := 301 },
       { domain := "c.example", client_ip := none, qtype := none, timestamp := 350 }] ∧
    (fetchV6 300 exV6Rows).2 = 350 ∧
    (300 : ℚ) < 301 ∧
    (fetchV5 300 exV5Rows).2 = 350 := by
  refine ⟨by decide, by decide, ?_, by decide⟩
  exact (claim_C7_pihole_cursor.1 300 exV6Rows).1
    { domain := "b.example", client_ip := none, qtype := none, timestamp := 301 } (by decide)

/-! ### C8: ASN upsert laws -/

theorem orElse_self (o : Option α) : (o.orElse fun _ => o) = o := by
  cases o <;> rfl

theorem orElse_orElse (o : Option α) (g : Unit → Option α) :
    (o.orElse fun _ => o.orElse g) = o.orElse g := by
  cases o <;> rfl

theorem orElse_ne_none {o b : Option α} (h : b ≠ none) :
    (o.orElse fun _ => b) ≠ none := by
  cases o
  · simpa [Option.orElse] using h
  · simp [Option.orElse]

/-- C8: `upsert_asn` applied twice with the same patch (at the same instant)
equals one application, and the update path never overwrites an existing
non-null metadata field with null. -/
theorem claim_C8_upsert_asn :
    (∀ (existing : Option AsnRecord) (a : Nat) (p : AsnPatch) (now : ℚ),
      upsertAsn (some (upsertAsn existing a p now)) a p now = upsertAsn existing a p now) ∧
    (∀ (r : AsnRecord) (a : Nat) (p : AsnPatch) (now : ℚ),
      (r.org_name ≠ none → (upsertAsn (some r) a p now).org_name ≠ none) ∧
      (r.country_code ≠ none → (upsertAsn (some r) a p now).country_code ≠ none) ∧
      (r.peeringdb_id ≠ none → (upsertAsn (some r) a p now).peeringdb_id ≠ none) ∧
      (r.facility_count ≠ none → (upsertAsn (some r) a p now).facility_count ≠ none) ∧
      (r.peering_policy ≠ none → (upsertAsn (some r) a p now).peering_policy ≠ none) ∧
      (r.traffic_levels ≠ none → (upsertAsn (some r) a p now).traffic_levels ≠ none) ∧
      (r.irr_as_set ≠ none → (upsertAsn (some r) a p now).irr_as_set ≠ none)) := by
  constructor
  · intro existing a p now
    cases existing with
    | none =>
      show updateAsn (insertAsn a p now) p now = insertAsn a p now
      unfold updateAsn insertAsn
      simp [orElse_self]
    | some r =>
      show updateAsn (updateAsn r p now) p now = updateAsn r p now
      unfold updateAsn
      simp [orElse_orElse]
  · intro r a p now
    refine ⟨?_, ?_, ?_, ?_, ?_, ?_, ?_⟩ <;>
      (intro h; exact orElse_ne_none h)

/-- Witness for C8: re-applying the empty patch to a fully populated row
changes nothing, and no populated field is nulled. -/
theorem claim_C8_upsert_asn_witness :
    upsertAsn (some (upsertAsn (some exAsnRecord) 13335 emptyPatch 20)) 13335 emptyPatch 20 =
      upsertAsn (some exAsnRecord) 13335 emptyPatch 20 ∧
    exAsnRecord.org_name ≠ none ∧
    (upsertAsn (some exAsnRecord) 13335 emptyPatch 20).org_name ≠ none ∧
    (upsertAsn (some exAsnRecord) 13335 emptyPatch 20).org_name = some "Cloudflare, Inc." :=
  ⟨claim_C8_upsert_asn.1 (some exAsnRecord) 13335 emptyPatch 20,
   by decide,
   (claim_C8_upsert_asn.2 exAsnRecord 13335 emptyPatch 20).1 (by decide),
   by decide⟩

/-! ### C6: failure paths of `lookup_ip_api` -/

theorem cbIsOpen_closed {b : CircuitBreaker} (h : b.state = CircuitState.closed)
    (now : ℚ) : cbIsOpen b now = (false, b) := by
  unfold cbIsOpen
  rw [h]

theorem find?_extCacheSet (c : ExtCache) (key : String) (now : ℚ)
    (v : ExternalAsnInfo) :
    ((extCacheSet c key now v).find? (fun e => e.1 = key)) = some (key, now, v) := by
  unfold extCacheSet
  by_cases hc : (c.find? (fun e => e.1 = key)).isSome
  · rw [if_pos hc]
    induction c with
    | nil => simp at hc
    | cons e rest ih =>
      by_cases hk : e.1 = key
      · simp only [List.map_cons, if_pos hk]
        rw [List.find?_cons_of_pos _ (by simp)]
      · simp only [List.map_cons, if_neg hk]
        rw [List.find?_cons_of_neg _ (by simpa using hk)]
        apply ih
        rwa [List.find?_cons_of_neg _ (by simpa using hk)] at hc
  · rw [if_neg hc]
    rw [List.find?_append]
    rw [Option.not_isSome_iff_eq_none.1 hc]
    simp [List.find?]

/-- C6 (counterexample): at a fresh process state, a timed-out ip-api call
returns the empty result and records a breaker failure — but stores the
empty result in the TTL cache, so a later call inside the TTL returns the
cached empty result even though the service would now answer: the claim's
"cache is not poisoned" is false. -/
theorem claim_C6_cache_poisoned :
    (lookupIpApi ipApiState0 "1.2.3.4" 0 IpApiResponse.timeout).1 = emptyIpApiInfo ∧
    (lookupIpApi ipApiState0 "1.2.3.4" 0 IpApiResponse.timeout).2.breaker.failures = 1 ∧
    (lookupIpApi ipApiState0 "1.2.3.4" 0 IpApiResponse.timeout).2.cache =
      [("ipapi:1.2.3.4", 0, emptyIpApiInfo)] ∧
    (lookupIpApi (lookupIpApi ipApiState0 "1.2.3.4" 0 IpApiResponse.timeout).2
      "1.2.3.4" 10 (IpApiResponse.okSuccess "AS13335 Cloudflare" (some "US"))).1 =
      emptyIpApiInfo := by
  decide

theorem cbRecordFailure_fields (b : CircuitBreaker) (now : ℚ) :
    (cbRecordFailure b now).failures = b.failures + 1 ∧
    (cbRecordFailure b now).last_failure_time = now := by
  obtain ⟨ft, rt, hm, f, lf, stt, hc⟩ := b
  cases stt <;>
    simp only [cbRecordFailure, cbToOpen] <;>
    constructor <;>
    first
      | rfl
      | trivial
      | (split <;> rfl)

/-- C6 (amended): on any transient ip-api failure (timeout, exception or
non-200 status) reached through a cache miss, a closed breaker and a
granted rate-limit token, the breaker records the failure, the caller
receives the empty result (no exception escapes), and the empty result is
written into the TTL cache under the lookup key. -/
theorem claim_C6_transient_failure :
    ∀ (st : IpApiState) (ip : String) (now : ℚ) (resp : IpApiResponse),
      (extCacheGet st.cache ("ipapi:" ++ ip) now st.cache_ttl).1 = none →
      st.breaker.state = CircuitState.closed →
      (rlTryAcquire st.limiter now).1 = true →
      (resp = IpApiResponse.timeout ∨ resp = IpApiResponse.exn ∨
        ∃ c, resp = IpApiResponse.status c) →
      (lookupIpApi st ip now resp).1 = emptyIpApiInfo ∧
      (lookupIpApi st ip now resp).2.breaker.failures = st.breaker.failures + 1 ∧
      (lookupIpApi st ip now resp).2.breaker.last_failure_time = now ∧
      ((lookupIpApi st ip now resp).2.cache.find? (fun e => e.1 = "ipapi:" ++ ip)) =
        some ("ipapi:" ++ ip, now, emptyIpApiInfo) := by
  intro st ip now resp hmiss hclosed hacq hresp
  cases hE : extCacheGet st.cache ("ipapi:" ++ ip) now st.cache_ttl with
  | mk o cache1 =>
    rw [hE] at hmiss
    simp only at hmiss
    subst hmiss
    cases hR : rlTryAcquire st.limiter now with
    | mk ok lim1 =>
      rw [hR] at hacq
      simp only at hacq
      subst hacq
      have hcb := cbIsOpen_closed hclosed now
      rcases hresp with rfl | rfl | ⟨c, rfl⟩ <;>
        (unfold lookupIpApi
         simp only [hE, hcb, hR]
         exact ⟨rfl, (cbRecordFailure_fields _ now).1, (cbRecordFailure_fields _ now).2,
           find?_extCacheSet _ _ _ _⟩)

/-- Witness for C6 (amended) at the concrete fresh state and a timeout. -/
theorem claim_C6_transient_failure_witness :
    (lookupIpApi ipApiState0 "8.8.8.8" 0 IpApiResponse.exn).1 = emptyIpApiInfo ∧
    (lookupIpApi ipApiState0 "8.8.8.8" 0 IpApiResponse.exn).2.breaker.failures = 1 ∧
    ((lookupIpApi ipApiState0 "8.8.8.8" 0 IpApiResponse.exn).2.cache.find?
      (fun e => e.1 = "ipapi:8.8.8.8")) = some ("ipapi:8.8.8.8", 0, emptyIpApiInfo) := by
  have h := claim_C6_transient_failure ipApiState0 "8.8.8.8" 0 IpApiResponse.exn
    (by decide) (by decide) (by decide) (Or.inr (Or.inl rfl))
  exact ⟨h.1, h.2.1, h.2.2.2⟩

/-! ### C4: traceroute parser lemmas -/

theorem isSpacePy_of_digit {c : Char} (h : c.isDigit = true) : isSpacePy c = false := by
  simp only [Char.isDigit, Bool.and_eq_true, decide_eq_true_eq] at h
  unfold isSpacePy
  simp only [Bool.or_eq_false_iff, beq_eq_false_iff_ne]
  refine ⟨⟨⟨⟨⟨?_, ?_⟩, ?_⟩, ?_⟩, ?_⟩, ?_⟩ <;>
    (intro hh; subst hh; exact absurd h (by decide))

theorem isNumDot_of_digit {c : Char} (h : c.isDigit = true) : isNumDot c = true := by
  simp [isNumDot, h]

theorem isNumDotStar_of_digit {c : Char} (h : c.isDigit = true) : isNumDotStar c = true := by
  simp [isNumDotStar, h]

theorem takeWhile_nil_of_head {p : Char → Bool} {r : List Char}
    (hr : ∀ c, r.head? = some c → p c = false) : r.takeWhile p = [] := by
  cases r with
  | nil => rfl
  | cons c rest =>
    have := hr c rfl
    simp [List.takeWhile, this]

theorem dropWhile_eq_self {p : Char → Bool} {r : List Char}
    (hr : ∀ c, r.head? = some c → p c = false) : r.dropWhile p = r := by
  cases r with
  | nil => rfl
  | cons c rest =>
    have := hr c rfl
    simp [List.dropWhile, this]

theorem takeWhile_append_run {p : Char → Bool} {T r : List Char}
    (hT : ∀ c ∈ T, p c = true) (hr : ∀ c, r.head? = some c → p c = false) :
    (T ++ r).takeWhile p = T := by
  induction T with
  | nil => exact takeWhile_nil_of_head hr
  | cons c rest ih =>
    have hc := hT c (List.mem_cons_self _ _)
    simp only [List.cons_append, List.takeWhile, hc]
    exact congrArg (c :: ·) (ih (fun x hx => hT x (List.mem_cons_of_mem _ hx)))

theorem dropWhile_append_run {p : Char → Bool} {T r : List Char}
    (hT : ∀ c ∈ T, p c = true) (hr : ∀ c, r.head? = some c → p c = false) :
    (T ++ r).dropWhile p = r := by
  induction T with
  | nil => exact dropWhile_eq_self hr
  | cons c rest ih =>
    have hc := hT c (List.mem_cons_self _ _)
    simp only [List.cons_append, List.dropWhile, hc]
    exact ih (fun x hx => hT x (List.mem_cons_of_mem _ hx))

theorem rttTokChars_ne_nil {r : RttTok} (h : WfRttTok r) : rttTokChars r ≠ [] := by
  obtain ⟨h1, _, _⟩ := h
  unfold rttTokChars
  cases hi : r.intDigits with
  | nil => exact absurd hi h1
  | cons c rest => simp

theorem rttTokChars_all_numDot {r : RttTok} (h : WfRttTok r) :
    ∀ c ∈ rttTokChars r, isNumDot c = true := by
  obtain ⟨_, h2, h3⟩ := h
  intro c hc
  unfold rttTokChars at hc
  rcases List.mem_append.1 hc with hc' | hc'
  · exact isNumDot_of_digit (h2 c hc')
  · cases hf : r.fracDigits with
    | none => rw [hf] at hc'; cases hc'
    | some f =>
      rw [hf] at hc'
      rcases List.mem_cons.1 hc' with rfl | hc''
      · rfl
      · exact isNumDot_of_digit (h3 f hf c hc'')

theorem rttTokChars_all_numDotStar {r : RttTok} (h : WfRttTok r) :
    ∀ c ∈ rttTokChars r, isNumDotStar c = true := by
  intro c hc
  have := rttTokChars_all_numDot h c hc
  unfold isNumDot at this
  unfold isNumDotStar
  rcases Bool.or_eq_true_iff.1 this with h' | h' <;> simp [h']

theorem rttTokChars_head_not_space {r : RttTok} (h : WfRttTok r) :
    ∀ c, (rttTokChars r).head? = some c → isSpacePy c = false := by
  obtain ⟨h1, h2, _⟩ := h
  intro c hc
  unfold rttTokChars at hc
  cases hi : r.intDigits with
  | nil => exact absurd hi h1
  | cons d rest =>
    rw [hi] at hc
    simp only [List.cons_append, List.head?_cons, Option.some.injEq] at hc
    rw [← hc]
    exact isSpacePy_of_digit (h2 d (by rw [hi]; exact List.mem_cons_self _ _))

theorem slotChars_ne_nil {s : RttSlot} (h : WfSlot s) : slotChars s ≠ [] := by
  cases s with
  | num r => exact rttTokChars_ne_nil h
  | star => simp [slotChars]

theorem slotChars_all_numDotStar {s : RttSlot} (h : WfSlot s) :
    ∀ c ∈ slotChars s, isNumDotStar c = true := by
  cases s with
  | num r => exact rttTokChars_all_numDotStar h
  | star =>
    intro c hc
    simp only [slotChars, List.mem_singleton] at hc
    subst hc
    rfl

theorem slotChars_head_not_space {s : RttSlot} (h : WfSlot s) :
    ∀ c, (slotChars s).head? = some c → isSpacePy c = false := by
  cases s with
  | num r => exact rttTokChars_head_not_space h
  | star =>
    intro c hc
    simp only [slotChars, List.head?_cons, Option.some.injEq] at hc
    subst hc
    rfl

theorem matchOptRtt_slot {s : RttSlot} (hs : WfSlot s) (tail : List Char) :
    matchOptRtt (' ' :: (slotChars s ++ ' ' :: 'm' :: 's' :: tail)) =
      some (slotChars s, tail) := by
  unfold matchOptRtt
  simp only [List.head?_cons]
  rw [if_pos (by rfl)]
  have hdrop : (' ' :: (slotChars s ++ ' ' :: 'm' :: 's' :: tail)).dropWhile isSpacePy =
      slotChars s ++ ' ' :: 'm' :: 's' :: tail := by
    rw [show (' ' :: (slotChars s ++ ' ' :: 'm' :: 's' :: tail)).dropWhile isSpacePy =
      (slotChars s ++ ' ' :: 'm' :: 's' :: tail).dropWhile isSpacePy by
        simp [List.dropWhile, isSpacePy]]
    exact dropWhile_eq_self (fun c hc => slotChars_head_not_space hs c
      (by rcases hx : slotChars s with _ | ⟨d, ds⟩
          · exact absurd hx (slotChars_ne_nil hs)
          · rw [hx] at hc; simpa using hc))
  rw [hdrop]
  rw [takeWhile_append_run (slotChars_all_numDotStar hs) (fun c hc => by
    simp only [List.head?_cons, Option.some.injEq] at hc
    subst hc
    rfl)]
  rw [if_neg (slotChars_ne_nil hs)]
  rw [dropWhile_append_run (slotChars_all_numDotStar hs) (fun c hc => by
    simp only [List.head?_cons, Option.some.injEq] at hc
    subst hc
    rfl)]
  rw [show (' ' :: 'm' :: 's' :: tail).dropWhile isSpacePy =
      ('m' :: 's' :: tail).dropWhile isSpacePy by simp [List.dropWhile, isSpacePy]]
  rw [dropWhile_eq_self (fun c hc => by
    simp only [List.head?_cons, Option.some.injEq] at hc
    subst hc
    rfl)]
  rfl

theorem msAfter_cons (X : List Char) : msAfter ('m' :: 's' :: X) = some X := rfl

theorem matchTracerouteLine_render {nds ip : List Char} {r1 : RttTok}
    {r23 : Option (RttSlot × Option RttSlot)}
    (hn : WfDigits nds) (hip : WfIpTok ip) (h1 : WfRttTok r1) (h23 : WfSlots r23) :
    matchTracerouteLine (renderHopLine nds ip r1 r23) =
      some (nds, ip, rttTokChars r1,
        r23.map (fun x => slotChars x.1),
        r23.bind (fun x => x.2.map slotChars)) := by
  obtain ⟨hn1, hn2⟩ := hn
  obtain ⟨hip1, hip2⟩ := hip
  have e_hd : ∀ X : List Char, (nds ++ ' ' :: X).dropWhile isSpacePy = nds ++ ' ' :: X := by
    intro X
    apply dropWhile_eq_self
    intro c hc
    cases hx : nds with
    | nil => exact absurd hx hn1
    | cons d ds =>
      rw [hx] at hc
      simp only [List.cons_append, List.head?_cons, Option.some.injEq] at hc
      rw [← hc]
      exact isSpacePy_of_digit (hn2 d (by rw [hx]; exact List.mem_cons_self _ _))
  have e_tk : ∀ X : List Char, (nds ++ ' ' :: X).takeWhile Char.isDigit = nds := by
    intro X
    apply takeWhile_append_run hn2
    intro c hc
    simp only [List.head?_cons, Option.some.injEq] at hc
    rw [← hc]
    rfl
  have e_dr : ∀ X : List Char, (nds ++ ' ' :: X).dropWhile Char.isDigit = ' ' :: X := by
    intro X
    apply dropWhile_append_run hn2
    intro c hc
    simp only [List.head?_cons, Option.some.injEq] at hc
    rw [← hc]
    rfl
  have e_ip0 : ∀ Y : List Char,
      (' ' :: (ip ++ ' ' :: Y)).dropWhile isSpacePy = ip ++ ' ' :: Y := by
    intro Y
    rw [show (' ' :: (ip ++ ' ' :: Y)).dropWhile isSpacePy =
      (ip ++ ' ' :: Y).dropWhile isSpacePy by simp [List.dropWhile, isSpacePy]]
    apply dropWhile_eq_self
    intro c hc
    cases hx : ip with
    | nil => exact absurd hx hip1
    | cons d ds =>
      rw [hx] at hc
      simp only [List.cons_append, List.head?_cons, Option.some.injEq] at hc
      rw [← hc]
      exact (hip2 d (by rw [hx]; exact List.mem_cons_self _ _)).1
  have e_iptk : ∀ Y : List Char,
      (ip ++ ' ' :: Y).takeWhile (fun c => !isSpacePy c) = ip := by
    intro Y
    apply takeWhile_append_run
    · intro c hc
      simp [(hip2 c hc).1]
    · intro c hc
      simp only [List.head?_cons, Option.some.injEq] at hc
      rw [← hc]
      rfl
  have e_ipdr : ∀ Y : List Char,
      (ip ++ ' ' :: Y).dropWhile (fun c => !isSpacePy c) = ' ' :: Y := by
    intro Y
    apply dropWhile_append_run
    · intro c hc
      simp [(hip2 c hc).1]
    · intro c hc
      simp only [List.head?_cons, Option.some.injEq] at hc
      rw [← hc]
      rfl
  have e_r10 : ∀ Z : List Char,
      (' ' :: (rttTokChars r1 ++ ' ' :: 'm' :: 's' :: Z)).dropWhile isSpacePy =
        rttTokChars r1 ++ ' ' :: 'm' :: 's' :: Z := by
    intro Z
    rw [show (' ' :: (rttTokChars r1 ++ ' ' :: 'm' :: 's' :: Z)).dropWhile isSpacePy =
      (rttTokChars r1 ++ ' ' :: 'm' :: 's' :: Z).dropWhile isSpacePy by
        simp [List.dropWhile, isSpacePy]]
    apply dropWhile_eq_self
    intro c hc
    cases hx : rttTokChars r1 with
    | nil => exact absurd hx (rttTokChars_ne_nil h1)
    | cons d ds =>
      rw [hx] at hc
      simp only [List.cons_append, List.head?_cons, Option.some.injEq] at hc
      rw [← hc]
      exact rttTokChars_head_not_space h1 d (by rw [hx]; rfl)
  have e_r1tk : ∀ Z : List Char,
      (rttTokChars r1 ++ ' ' :: 'm' :: 's' :: Z).takeWhile isNumDot = rttTokChars r1 := by
    intro Z
    apply takeWhile_append_run (rttTokChars_all_numDot h1)
    intro c hc
    simp only [List.head?_cons, Option.some.injEq] at hc
    rw [← hc]
    rfl
  have e_r1dr : ∀ Z : List Char,
      ((rttTokChars r1 ++ ' ' :: 'm' :: 's' :: Z).dropWhile isNumDot).dropWhile isSpacePy =
        'm' :: 's' :: Z := by
    intro Z
    rw [dropWhile_append_run (rttTokChars_all_numDot h1) (fun c hc => by
      simp only [List.head?_cons, Option.some.injEq] at hc
      rw [← hc]
      rfl)]
    simp [List.dropWhile, isSpacePy]
  simp only [matchTracerouteLine, renderHopLine, List.cons_append, List.append_assoc]
  rw [e_hd, e_tk, if_neg hn1, e_dr]
  simp only [List.head?_cons]
  rw [if_neg (by decide : ¬ (¬ isSpacePy ' ' = true))]
  rw [e_ip0, e_iptk, if_neg hip1, e_ipdr]
  simp only [List.head?_cons]
  rw [if_neg (by decide : ¬ (¬ isSpacePy ' ' = true))]
  rw [e_r10, e_r1tk, if_neg (rttTokChars_ne_nil h1), e_r1dr]
  cases r23 with
  | none => rfl
  | some pr =>
    obtain ⟨s2, os3⟩ := pr
    obtain ⟨h2, h3⟩ := h23
    cases os3 with
    | none =>
      rw [msAfter_cons]
      dsimp only
      rw [matchOptRtt_slot h2 []]
      rfl
    | some s3 =>
      have hs3 := h3 s3 rfl
      rw [msAfter_cons]
      dsimp only
      rw [matchOptRtt_slot h2 (' ' :: (slotChars s3 ++ [' ', 'm', 's']))]
      dsimp only
      rw [matchOptRtt_slot hs3 []]
      rfl

theorem natOfDigits_nonneg (ds : List Char) : (0 : ℚ) ≤ (natOfDigits ds : ℚ) := by
  exact_mod_cast Nat.zero_le _

theorem pyFloat?_rttTok {r : RttTok} (h : WfRttTok r) :
    pyFloat? (rttTokChars r) = some (rttTokVal r) := by
  obtain ⟨h1, h2, h3⟩ := h
  unfold pyFloat? rttTokChars rttTokVal
  cases hf : r.fracDigits with
  | none =>
    simp only [List.append_nil]
    rw [List.takeWhile_eq_self_iff.2 h2, List.dropWhile_eq_nil_iff.2 (fun c hc => h2 c hc)]
    simp [h1]
  | some f =>
    rw [takeWhile_append_run h2 (fun c hc => by
      simp only [List.head?_cons, Option.some.injEq] at hc
      rw [← hc]
      rfl)]
    rw [dropWhile_append_run h2 (fun c hc => by
      simp only [List.head?_cons, Option.some.injEq] at hc
      rw [← hc]
      rfl)]
    dsimp only
    split
    · rename_i heq
      exact absurd heq (by simp)
    · rename_i frac heq
      injection heq with _ hfr
      subst hfr
      rw [if_pos ⟨List.all_eq_true.2 (fun c hc => h3 f hf c hc), Or.inl h1⟩]
    · rename_i hx1 hx2
      exact absurd rfl (hx2 f)

theorem contains_eq_false_of {c : Char} {l : List Char} (h : ∀ x ∈ l, x ≠ c) :
    l.contains c = false := by
  induction l with
  | nil => rfl
  | cons a t ih =>
    simp only [List.contains_cons, Bool.or_eq_false_iff]
    refine ⟨beq_eq_false_iff_ne.2 (Ne.symm (h a (List.mem_cons_self a t))), ?_⟩
    exact ih (fun x hx => h x (List.mem_cons_of_mem a hx))

theorem rttTokChars_not_contains_star {r : RttTok} (h : WfRttTok r) :
    (rttTokChars r).contains '*' = false := by
  apply contains_eq_false_of
  intro x hx
  have := rttTokChars_all_numDot h x hx
  intro hxe
  subst hxe
  simp [isNumDot] at this

theorem rttTokChars_not_contains_paren {r : RttTok} (h : WfRttTok r) :
    (rttTokChars r).contains '(' = false := by
  apply contains_eq_false_of
  intro x hx
  have := rttTokChars_all_numDot h x hx
  intro hxe
  subst hxe
  simp [isNumDot] at this

theorem rttStep_num {r : RttTok} (h : WfRttTok r) (acc : List ℚ) :
    rttStep (rttTokChars r) acc = rttTokVal r :: acc := by
  unfold rttStep
  rw [rttTokChars_not_contains_star h, if_neg Bool.false_ne_true, pyFloat?_rttTok h]

theorem rttStep_slot {s : RttSlot} (h : WfSlot s) (acc : List ℚ) :
    rttStep (slotChars s) acc = slotVals s ++ acc := by
  cases s with
  | num r =>
    show rttStep (rttTokChars r) acc = [rttTokVal r] ++ acc
    rw [rttStep_num h, List.singleton_append]
  | star =>
    show rttStep ['*'] acc = [] ++ acc
    rw [List.nil_append]
    rfl

theorem rttValues_render {r1 : RttTok} {r23 : Option (RttSlot × Option RttSlot)}
    (h1 : WfRttTok r1) (h23 : WfSlots r23) :
    rttValues (rttTokChars r1) (r23.map (fun x => slotChars x.1))
      (r23.bind (fun x => x.2.map slotChars)) = lineVals r1 r23 := by
  rcases r23 with _ | ⟨s2, _ | s3⟩
  · show rttStep (rttTokChars r1) [] = lineVals r1 none
    rw [rttStep_num h1]
    rfl
  · obtain ⟨hs2, _⟩ := h23
    show rttStep (rttTokChars r1) (rttStep (slotChars s2) []) =
      lineVals r1 (some (s2, none))
    rw [rttStep_slot hs2, rttStep_num h1]
    simp [lineVals]
  · obtain ⟨hs2, hs3⟩ := h23
    show rttStep (rttTokChars r1) (rttStep (slotChars s2) (rttStep (slotChars s3) [])) =
      lineVals r1 (some (s2, some s3))
    rw [rttStep_slot (hs3 s3 rfl), rttStep_slot hs2, rttStep_num h1]
    simp [lineVals]

theorem parseTracerouteLine_render {nds ip : List Char} {r1 : RttTok}
    {r23 : Option (RttSlot × Option RttSlot)}
    (hn : WfDigits nds) (hip : WfIpTok ip) (h1 : WfRttTok r1) (h23 : WfSlots r23) :
    parseTracerouteLine (renderHopLine nds ip r1 r23) =
      some { hop := natOfDigits nds, ip := some (String.mk ip),
             rtt_ms := meanRtt (lineVals r1 r23) } := by
  have hparen : ip.contains '(' = false :=
    contains_eq_false_of (fun x hx => (hip.2 x hx).2.1)
  have hstar : ip.contains '*' = false :=
    contains_eq_false_of (fun x hx => (hip.2 x hx).2.2)
  unfold parseTracerouteLine
  rw [matchTracerouteLine_render hn hip h1 h23]
  dsimp only
  rw [hparen, if_neg Bool.false_ne_true, hstar, if_neg Bool.false_ne_true,
    rttValues_render h1 h23]
  rfl

theorem matchTracerouteLine_star {nds : List Char} (hn1 : nds ≠ [])
    (hn2 : ∀ c ∈ nds, c.isDigit = true) :
    matchTracerouteLine (renderStarLine nds) = none := by
  unfold matchTracerouteLine renderStarLine
  have e0 : (nds ++ [' ', '*', ' ', '*', ' ', '*']).dropWhile isSpacePy =
      nds ++ [' ', '*', ' ', '*', ' ', '*'] := by
    refine dropWhile_eq_self (fun c hc => ?_)
    cases nds with
    | nil => exact absurd rfl hn1
    | cons d tl =>
      simp only [List.cons_append, List.head?_cons, Option.some.injEq] at hc
      rw [← hc]
      exact isSpacePy_of_digit (hn2 d (List.mem_cons_self d tl))
  have e1 : (nds ++ [' ', '*', ' ', '*', ' ', '*']).takeWhile Char.isDigit = nds :=
    takeWhile_append_run hn2 (fun c hc => by
      simp only [List.head?_cons, Option.some.injEq] at hc
      rw [← hc]
      rfl)
  have e2 : (nds ++ [' ', '*', ' ', '*', ' ', '*']).dropWhile Char.isDigit =
      [' ', '*', ' ', '*', ' ', '*'] :=
    dropWhile_append_run hn2 (fun c hc => by
      simp only [List.head?_cons, Option.some.injEq] at hc
      rw [← hc]
      rfl)
  dsimp only
  rw [e0, e1, if_neg hn1, e2]
  rfl

theorem pySplitAux_token {T : List Char} (hT : ∀ c ∈ T, isSpacePy c = false) :
    ∀ (r acc : List Char), pySplitAux (T ++ r) acc = pySplitAux r (T.reverse ++ acc) := by
  induction T with
  | nil => intro r acc; simp
  | cons c tl ih =>
    intro r acc
    rw [List.cons_append]
    show pySplitAux (c :: (tl ++ r)) acc = _
    rw [pySplitAux]
    rw [if_neg (by rw [hT c (List.mem_cons_self c tl)]; exact Bool.false_ne_true)]
    rw [ih (fun x hx => hT x (List.mem_cons_of_mem c hx)) r (c :: acc)]
    simp

theorem pySplit_starLine {nds : List Char} (hn1 : nds ≠ [])
    (hn2 : ∀ c ∈ nds, c.isDigit = true) :
    pySplit (renderStarLine nds) = [nds, ['*'], ['*'], ['*']] := by
  unfold pySplit renderStarLine
  rw [pySplitAux_token (fun c hc => isSpacePy_of_digit (hn2 c hc))]
  rw [List.append_nil]
  show pySplitAux (' ' :: ['*', ' ', '*', ' ', '*']) nds.reverse = _
  rw [pySplitAux]
  rw [if_pos (show isSpacePy ' ' = true by rfl)]
  rw [if_neg (by simpa using hn1)]
  rw [List.reverse_reverse]
  rfl

theorem parseTracerouteLine_star {nds : List Char} (hn : WfDigits nds) :
    parseTracerouteLine (renderStarLine nds) =
      some { hop := natOfDigits nds, ip := none, rtt_ms := none } := by
  obtain ⟨hn1, hn2⟩ := hn
  unfold parseTracerouteLine
  rw [matchTracerouteLine_star hn1 hn2]
  dsimp only
  rw [pySplit_starLine hn1 hn2]
  dsimp only
  rw [if_pos ⟨hn1, List.all_eq_true.2 hn2, by rfl⟩]

theorem ne_of_pred {p : Char → Bool} {c d : Char} (hc : p c = true) (hd : p d = false) :
    c ≠ d := by
  intro h
  rw [h, hd] at hc
  exact Bool.false_ne_true hc

theorem ne_of_pred_false {p : Char → Bool} {c d : Char} (hc : p c = false) (hd : p d = true) :
    c ≠ d := by
  intro h
  rw [h, hd] at hc
  exact absurd hc (by decide)

theorem noNL_of_digit {c : Char} (h : c.isDigit = true) : c ≠ '\n' ∧ c ≠ '\r' :=
  ⟨ne_of_pred h (by rfl), ne_of_pred h (by rfl)⟩

theorem noNL_of_not_space {c : Char} (h : isSpacePy c = false) : c ≠ '\n' ∧ c ≠ '\r' :=
  ⟨ne_of_pred_false h (by rfl), ne_of_pred_false h (by rfl)⟩

theorem noNL_of_numDotStar {c : Char} (h : isNumDotStar c = true) : c ≠ '\n' ∧ c ≠ '\r' :=
  ⟨ne_of_pred h (by rfl), ne_of_pred h (by rfl)⟩

theorem splitLinesAux_no_newline {cs : List Char}
    (h : ∀ c ∈ cs, c ≠ '\n' ∧ c ≠ '\r') :
    ∀ acc, splitLinesAux cs acc = [acc.reverse ++ cs] := by
  induction cs with
  | nil => intro acc; simp [splitLinesAux]
  | cons c tl ih =>
    intro acc
    rw [splitLinesAux.eq_def]
    dsimp only
    rw [if_neg (h c (List.mem_cons_self c tl)).1,
        if_neg (h c (List.mem_cons_self c tl)).2]
    rw [ih (fun x hx => h x (List.mem_cons_of_mem c hx)) (c :: acc)]
    simp

theorem splitLines_single {cs : List Char} (h : ∀ c ∈ cs, c ≠ '\n' ∧ c ≠ '\r') :
    splitLines cs = [cs] := by
  unfold splitLines
  rw [splitLinesAux_no_newline h []]
  rfl

theorem renderHopLine_no_newline {nds ip : List Char} {r1 : RttTok}
    {r23 : Option (RttSlot × Option RttSlot)}
    (hn : WfDigits nds) (hip : WfIpTok ip) (h1 : WfRttTok r1) (h23 : WfSlots r23) :
    ∀ c ∈ renderHopLine nds ip r1 r23, c ≠ '\n' ∧ c ≠ '\r' := by
  have hnds : ∀ c ∈ nds, c ≠ '\n' ∧ c ≠ '\r' := fun c hc => noNL_of_digit (hn.2 c hc)
  have hip' : ∀ c ∈ ip, c ≠ '\n' ∧ c ≠ '\r' := fun c hc => noNL_of_not_space (hip.2 c hc).1
  have hr1 : ∀ c ∈ rttTokChars r1, c ≠ '\n' ∧ c ≠ '\r' :=
    fun c hc => noNL_of_numDotStar (rttTokChars_all_numDotStar h1 c hc)
  rcases r23 with _ | ⟨s2, _ | s3⟩
  · unfold renderHopLine
    simp only [List.forall_mem_append, List.forall_mem_cons]
    repeat' apply And.intro
    all_goals
      first
        | exact hnds
        | exact hip'
        | exact hr1
        | decide
  · have hs2 : ∀ c ∈ slotChars s2, c ≠ '\n' ∧ c ≠ '\r' :=
      fun c hc => noNL_of_numDotStar (slotChars_all_numDotStar h23.1 c hc)
    unfold renderHopLine
    simp only [List.forall_mem_append, List.forall_mem_cons]
    repeat' apply And.intro
    all_goals
      first
        | exact hnds
        | exact hip'
        | exact hr1
        | exact hs2
        | decide
  · have hs2 : ∀ c ∈ slotChars s2, c ≠ '\n' ∧ c ≠ '\r' :=
      fun c hc => noNL_of_numDotStar (slotChars_all_numDotStar h23.1 c hc)
    have hs3 : ∀ c ∈ slotChars s3, c ≠ '\n' ∧ c ≠ '\r' :=
      fun c hc => noNL_of_numDotStar (slotChars_all_numDotStar (h23.2 s3 rfl) c hc)
    unfold renderHopLine
    simp only [List.forall_mem_append, List.forall_mem_cons]
    repeat' apply And.intro
    all_goals
      first
        | exact hnds
        | exact hip'
        | exact hr1
        | exact hs2
        | exact hs3
        | decide

theorem renderStarLine_no_newline {nds : List Char} (hn : WfDigits nds) :
    ∀ c ∈ renderStarLine nds, c ≠ '\n' ∧ c ≠ '\r' := by
  have hnds : ∀ c ∈ nds, c ≠ '\n' ∧ c ≠ '\r' := fun c hc => noNL_of_digit (hn.2 c hc)
  unfold renderStarLine
  simp only [List.forall_mem_append, List.forall_mem_cons]
  repeat' apply And.intro
  all_goals
    first
      | exact hnds
      | decide

theorem getLast?_cons_append_cons (a : Char) (l : List Char) (b : Char) (m : List Char) :
    (a :: (l ++ b :: m)).getLast? = (b :: m).getLast? := by
  rw [← List.cons_append, List.getLast?_append_cons]

theorem pyStrip_eq_self {cs : List Char}
    (h1 : ∀ c, cs.head? = some c → isSpacePy c = false)
    (h2 : ∀ c, cs.getLast? = some c → isSpacePy c = false) :
    pyStrip cs = cs := by
  unfold pyStrip
  rw [dropWhile_eq_self h1,
    dropWhile_eq_self (fun c hc => h2 c (by rwa [List.head?_reverse] at hc)),
    List.reverse_reverse]

theorem renderHopLine_getLast {nds ip : List Char} {r1 : RttTok}
    {r23 : Option (RttSlot × Option RttSlot)} :
    (renderHopLine nds ip r1 r23).getLast? = some 's' := by
  rcases r23 with _ | ⟨s2, _ | s3⟩ <;>
    (unfold renderHopLine;
     simp only [List.getLast?_append_cons, getLast?_cons_append_cons,
       List.getLast?_cons_cons]) <;> rfl

theorem renderHopLine_head {nds ip : List Char} {r1 : RttTok}
    {r23 : Option (RttSlot × Option RttSlot)} (hn : WfDigits nds) :
    ∀ c, (renderHopLine nds ip r1 r23).head? = some c → c.isDigit = true := by
  intro c hc
  unfold renderHopLine at hc
  cases h : nds with
  | nil => exact absurd h hn.1
  | cons d tl =>
    simp only [h, List.cons_append, List.head?_cons, Option.some.injEq] at hc
    rw [← hc]
    exact hn.2 d (h ▸ List.mem_cons_self d tl)

theorem pyStrip_renderHopLine {nds ip : List Char} {r1 : RttTok}
    {r23 : Option (RttSlot × Option RttSlot)} (hn : WfDigits nds) :
    pyStrip (renderHopLine nds ip r1 r23) = renderHopLine nds ip r1 r23 := by
  refine pyStrip_eq_self (fun c hc => isSpacePy_of_digit (renderHopLine_head hn c hc)) ?_
  intro c hc
  rw [renderHopLine_getLast, Option.some.injEq] at hc
  rw [← hc]
  rfl

theorem renderStarLine_getLast {nds : List Char} :
    (renderStarLine nds).getLast? = some '*' := by
  unfold renderStarLine
  rw [show nds ++ [' ', '*', ' ', '*', ' ', '*'] = nds ++ ' ' :: ['*', ' ', '*', ' ', '*']
    from rfl, List.getLast?_append_cons]
  rfl

theorem renderStarLine_head {nds : List Char} (hn : WfDigits nds) :
    ∀ c, (renderStarLine nds).head? = some c → c.isDigit = true := by
  intro c hc
  unfold renderStarLine at hc
  cases h : nds with
  | nil => exact absurd h hn.1
  | cons d tl =>
    simp only [h, List.cons_append, List.head?_cons, Option.some.injEq] at hc
    rw [← hc]
    exact hn.2 d (h ▸ List.mem_cons_self d tl)

theorem pyStrip_renderStarLine {nds : List Char} (hn : WfDigits nds) :
    pyStrip (renderStarLine nds) = renderStarLine nds := by
  refine pyStrip_eq_self (fun c hc => isSpacePy_of_digit (renderStarLine_head hn c hc)) ?_
  intro c hc
  rw [renderStarLine_getLast, Option.some.injEq] at hc
  rw [← hc]
  rfl

theorem traceroute_not_prefix {c : Char} {rest : List Char} (h : c.isDigit = true) :
    "traceroute".data.isPrefixOf (c :: rest) = false := by
  have e : "traceroute".data = 't' :: "raceroute".data := rfl
  rw [e]
  show (('t' == c) && List.isPrefixOf "raceroute".data rest) = false
  rw [beq_eq_false_iff_ne.2 (Ne.symm (ne_of_pred h (by rfl))), Bool.false_and]

theorem traceroute_not_prefix_of_head {L : List Char}
    (h : ∀ c, L.head? = some c → c.isDigit = true) (hne : L ≠ []) :
    "traceroute".data.isPrefixOf L = false := by
  cases L with
  | nil => exact absurd rfl hne
  | cons c rest => exact traceroute_not_prefix (h c rfl)

theorem renderHopLine_ne_nil {nds ip : List Char} {r1 : RttTok}
    {r23 : Option (RttSlot × Option RttSlot)} (hn : WfDigits nds) :
    renderHopLine nds ip r1 r23 ≠ [] := by
  unfold renderHopLine
  cases h : nds with
  | nil => exact absurd h hn.1
  | cons d tl => simp

theorem renderStarLine_ne_nil {nds : List Char} (hn : WfDigits nds) :
    renderStarLine nds ≠ [] := by
  unfold renderStarLine
  cases h : nds with
  | nil => exact absurd h hn.1
  | cons d tl => simp

theorem parseTracerouteHops_hopLine {nds ip : List Char} {r1 : RttTok}
    {r23 : Option (RttSlot × Option RttSlot)}
    (hn : WfDigits nds) (hip : WfIpTok ip) (h1 : WfRttTok r1) (h23 : WfSlots r23) :
    parseTracerouteHops (renderHopLine nds ip r1 r23) =
      [{ hop := natOfDigits nds, ip := some (String.mk ip),
         rtt_ms := meanRtt (lineVals r1 r23) }] := by
  unfold parseTracerouteHops
  rw [splitLines_single (renderHopLine_no_newline hn hip h1 h23)]
  simp only [List.filterMap_cons, List.filterMap_nil]
  dsimp only
  rw [pyStrip_renderHopLine hn]
  rw [if_neg (renderHopLine_ne_nil hn)]
  rw [traceroute_not_prefix_of_head (renderHopLine_head hn) (renderHopLine_ne_nil hn),
      if_neg Bool.false_ne_true]
  rw [parseTracerouteLine_render hn hip h1 h23]

theorem parseTracerouteHops_star {nds : List Char} (hn : WfDigits nds) :
    parseTracerouteHops (renderStarLine nds) =
      [{ hop := natOfDigits nds, ip := none, rtt_ms := none }] := by
  unfold parseTracerouteHops
  rw [splitLines_single (renderStarLine_no_newline hn)]
  simp only [List.filterMap_cons, List.filterMap_nil]
  dsimp only
  rw [pyStrip_renderStarLine hn]
  rw [if_neg (renderStarLine_ne_nil hn)]
  rw [traceroute_not_prefix_of_head (renderStarLine_head hn) (renderStarLine_ne_nil hn),
      if_neg Bool.false_ne_true]
  rw [parseTracerouteLine_star hn]

/-- C4: the traceroute parser maps a per-hop line `N IP r1 ms [r2 ms [r3 ms]]`
to a single hop whose number is `N`, whose IP is the line's IP token, and
whose RTT is the arithmetic mean of the non-`*` RTT values (`none` when no
value survives); it maps a timeout line `N * * *` to a hop with null IP and
null RTT; and `run_traceroute` reports `success` exactly when the child
process exited with code 0 and at least one hop was parsed. -/
theorem claim_C4_traceroute_parsing
    (nds ip : List Char) (r1 : RttTok) (r23 : Option (RttSlot × Option RttSlot))
    (code : Int) (output : List Char)
    (hn : WfDigits nds) (hip : WfIpTok ip) (h1 : WfRttTok r1) (h23 : WfSlots r23) :
    parseTracerouteHops (renderHopLine nds ip r1 r23) =
      [{ hop := natOfDigits nds, ip := some (String.mk ip),
         rtt_ms := meanRtt (lineVals r1 r23) }] ∧
    parseTracerouteHops (renderStarLine nds) =
      [{ hop := natOfDigits nds, ip := none, rtt_ms := none }] ∧
    ((runTracerouteOutcome code output).success = true ↔
      code = 0 ∧ parseTracerouteHops output ≠ []) := by
  refine ⟨parseTracerouteHops_hopLine hn hip h1 h23, parseTracerouteHops_star hn, ?_⟩
  unfold runTracerouteOutcome
  simp [List.length_pos]

theorem claim_C4_traceroute_parsing_witness :
    WfDigits ['1'] ∧ WfIpTok ['8', '.', '8', '.', '8', '.', '8'] ∧
    WfRttTok ⟨['1', '2'], some ['5']⟩ ∧
    WfSlots (some (RttSlot.star, some (RttSlot.num ⟨['3'], none⟩))) ∧
    (parseTracerouteHops (renderHopLine ['1'] ['8', '.', '8', '.', '8', '.', '8']
        ⟨['1', '2'], some ['5']⟩ (some (RttSlot.star, some (RttSlot.num ⟨['3'], none⟩)))) =
      [{ hop := natOfDigits ['1'], ip := some (String.mk ['8', '.', '8', '.', '8', '.', '8']),
         rtt_ms := meanRtt (lineVals ⟨['1', '2'], some ['5']⟩
           (some (RttSlot.star, some (RttSlot.num ⟨['3'], none⟩)))) }] ∧
     parseTracerouteHops (renderStarLine ['1']) =
      [{ hop := natOfDigits ['1'], ip := none, rtt_ms := none }] ∧
     ((runTracerouteOutcome 0 (renderHopLine ['1'] ['8', '.', '8', '.', '8', '.', '8']
          ⟨['1', '2'], some ['5']⟩
          (some (RttSlot.star, some (RttSlot.num ⟨['3'], none⟩))))).success = true ↔
        (0 : Int) = 0 ∧
          parseTracerouteHops (renderHopLine ['1'] ['8', '.', '8', '.', '8', '.', '8']
            ⟨['1', '2'], some ['5']⟩
            (some (RttSlot.star, some (RttSlot.num ⟨['3'], none⟩)))) ≠ [])) :=
  have hn : WfDigits ['1'] := ⟨by decide, by decide⟩
  have hip : WfIpTok ['8', '.', '8', '.', '8', '.', '8'] := ⟨by decide, by decide⟩
  have h1 : WfRttTok ⟨['1', '2'], some ['5']⟩ :=
    ⟨by decide, by decide, fun f hf => by injection hf with hf; rw [← hf]; decide⟩
  have h23 : WfSlots (some (RttSlot.star, some (RttSlot.num ⟨['3'], none⟩))) :=
    ⟨trivial, fun s3 h => by
      injection h with h
      rw [← h]
      exact ⟨by decide, by decide, fun f hf => by cases hf⟩⟩
  ⟨hn, hip, h1, h23,
    claim_C4_traceroute_parsing ['1'] ['8', '.', '8', '.', '8', '.', '8']
      ⟨['1', '2'], some ['5']⟩ (some (RttSlot.star, some (RttSlot.num ⟨['3'], none⟩)))
      0 (renderHopLine ['1'] ['8', '.', '8', '.', '8', '.', '8']
        ⟨['1', '2'], some ['5']⟩ (some (RttSlot.star, some (RttSlot.num ⟨['3'], none⟩))))
      hn hip h1 h23⟩

theorem foldl_preserve {α : Type} {σ : Type} {f : σ → α → σ} {P : σ → Prop}
    (hf : ∀ st x, P st → P (f st x)) :
    ∀ (l : List α) (st : σ), P st → P (l.foldl f st) := by
  intro l
  induction l with
  | nil => intro st h; exact h
  | cons x xs ih => intro st h; exact ih (f st x) (hf st x h)

theorem getOrCreateTarget_proj (s : PgState) (ip : String) (src : Option String) :
    (getOrCreateTarget s ip src).2.measurements = s.measurements ∧
    (getOrCreateTarget s ip src).2.hops = s.hops ∧
    (getOrCreateTarget s ip src).2.nextMeasurementId = s.nextMeasurementId ∧
    (getOrCreateTarget s ip src).2.nextHopId = s.nextHopId := by
  unfold getOrCreateTarget
  cases s.targets.find? (fun t => t.target_ip = ip) <;> exact ⟨rfl, rfl, rfl, rfl⟩

theorem fetchUnenrichedHops_mem {s : PgState} {limit : Nat} {r : Hop}
    (hr : r ∈ fetchUnenrichedHops s limit) :
    r ∈ s.hops ∧ r.hop_ip ≠ none ∧ r.asn = none ∧
      measurementSuccess s r.measurement_id = true := by
  unfold fetchUnenrichedHops at hr
  have h1 := List.take_subset _ _ hr
  rw [mem_sortByLe] at h1
  have h2 := List.mem_filter.1 h1
  have h3 := h2.2
  simp only [decide_eq_true_eq] at h3
  exact ⟨h2.1, h3.1, h3.2.1, h3.2.2⟩

theorem fetchMeasurementsForGraph_mem {s : PgState} {limit : Nat} {m : Measurement}
    (hm : m ∈ fetchMeasurementsForGraph s limit) :
    m ∈ s.measurements ∧ m.enriched = true ∧ m.graph_built = false := by
  unfold fetchMeasurementsForGraph at hm
  have h1 := List.take_subset _ _ hm
  rw [mem_sortByLe] at h1
  have h2 := List.mem_filter.1 h1
  have h3 := h2.2
  simp only [decide_eq_true_eq] at h3
  exact ⟨h2.1, h3.1, h3.2⟩

theorem measurementSuccess_true {s : PgState} {mid : Nat}
    (h : measurementSuccess s mid = true) :
    ∃ m, m ∈ s.measurements ∧ m.id = mid ∧ m.success = true := by
  unfold measurementSuccess at h
  cases hf : s.measurements.find? (fun m => m.id = mid) with
  | none => rw [hf] at h; cases h
  | some m =>
    rw [hf] at h
    refine ⟨m, List.mem_of_find?_eq_some hf, ?_, h⟩
    have := List.find?_some hf
    simpa using this

theorem remaining_eq_zero_iff (s : PgState) (mid : Nat) :
    remainingUnenrichedHops s mid = 0 ↔ NoUnenriched s mid := by
  unfold remainingUnenrichedHops NoUnenriched
  rw [List.length_eq_zero, List.filter_eq_nil_iff]
  constructor
  · intro H h hh hmid hasn
    by_contra hip
    exact H h hh (by simp [hmid, hasn, hip])
  · intro H h hh
    simp only [decide_eq_true_eq, not_and]
    intro hmid hasn hip
    exact hip (H h hh hmid hasn)

theorem hopUpdateFn_fields (oracle : EnrichOracle) (r h : Hop) :
    (hopUpdateFn oracle r h).id = h.id ∧
    (hopUpdateFn oracle r h).measurement_id = h.measurement_id ∧
    (hopUpdateFn oracle r h).hop_ip = h.hop_ip := by
  unfold hopUpdateFn
  cases oracle r.hop_ip with
  | none => exact ⟨rfl, rfl, rfl⟩
  | some trip =>
    obtain ⟨ai, ao, ext⟩ := trip
    by_cases hid : h.id = r.id <;> simp [hid]

theorem hopUpdateFn_untouched {oracle : EnrichOracle} {r h : Hop} (hne : r.id ≠ h.id) :
    hopUpdateFn oracle r h = h := by
  unfold hopUpdateFn
  cases oracle r.hop_ip with
  | none => rfl
  | some trip =>
    obtain ⟨ai, ao, ext⟩ := trip
    dsimp only
    rw [if_neg (fun hh => hne hh.symm)]

theorem chainUpdate_fields (oracle : EnrichOracle) (records : List Hop) :
    ∀ h : Hop, (chainUpdate oracle records h).id = h.id ∧
      (chainUpdate oracle records h).measurement_id = h.measurement_id ∧
      (chainUpdate oracle records h).hop_ip = h.hop_ip := by
  induction records with
  | nil => intro h; exact ⟨rfl, rfl, rfl⟩
  | cons r rs ih =>
    intro h
    show (chainUpdate oracle rs (hopUpdateFn oracle r h)).id = _ ∧ _ ∧ _
    obtain ⟨e1, e2, e3⟩ := ih (hopUpdateFn oracle r h)
    obtain ⟨f1, f2, f3⟩ := hopUpdateFn_fields oracle r h
    exact ⟨e1.trans f1, e2.trans f2, e3.trans f3⟩

theorem chainUpdate_untouched (oracle : EnrichOracle) (records : List Hop) :
    ∀ h : Hop, (∀ r ∈ records, r.id ≠ h.id) → chainUpdate oracle records h = h := by
  induction records with
  | nil => intro h _; rfl
  | cons r rs ih =>
    intro h hne
    show chainUpdate oracle rs (hopUpdateFn oracle r h) = h
    rw [hopUpdateFn_untouched (hne r (List.mem_cons_self r rs))]
    exact ih h (fun x hx => hne x (List.mem_cons_of_mem r hx))

theorem applyHopUpdate_eq (oracle : EnrichOracle) (st : PgState) (r : Hop) :
    applyHopUpdate oracle st r = { st with hops := st.hops.map (hopUpdateFn oracle r) } := by
  unfold applyHopUpdate hopUpdateFn updateHopEnrichment
  cases ho : oracle r.hop_ip with
  | none => simp
  | some trip =>
    obtain ⟨ai, ao, ext⟩ := trip
    rfl

theorem processHops_eq (oracle : EnrichOracle) (records : List Hop) :
    ∀ s : PgState, records.foldl (applyHopUpdate oracle) s =
      { s with hops := s.hops.map (chainUpdate oracle records) } := by
  induction records with
  | nil =>
    intro s
    show s = { s with hops := s.hops.map (chainUpdate oracle []) }
    have e : s.hops.map (chainUpdate oracle []) = s.hops := by
      conv_rhs => rw [← List.map_id' s.hops]
      exact List.map_congr_left (fun h _ => rfl)
    rw [e]
  | cons r rs ih =>
    intro s
    show rs.foldl (applyHopUpdate oracle) (applyHopUpdate oracle s r) = _
    rw [applyHopUpdate_eq, ih]
    have e : s.hops.map ((chainUpdate oracle rs) ∘ (hopUpdateFn oracle r)) =
        s.hops.map (chainUpdate oracle (r :: rs)) :=
      List.map_congr_left (fun h _ => rfl)
    rw [List.map_map, e]

theorem foldl_preserve_mem {α : Type} {σ : Type} {f : σ → α → σ} {P : σ → Prop} :
    ∀ (l : List α), (∀ st x, x ∈ l → P st → P (f st x)) →
      ∀ st, P st → P (l.foldl f st) := by
  intro l
  induction l with
  | nil => intro _ st h; exact h
  | cons x xs ih =>
    intro hf st h
    exact ih (fun st' y hy => hf st' y (List.mem_cons_of_mem x hy)) (f st x)
      (hf st x (List.mem_cons_self x xs) h)

theorem noUnenriched_of_hops_eq {s s' : PgState} (hh : s'.hops = s.hops) {mid : Nat}
    (h : NoUnenriched s mid) : NoUnenriched s' mid := by
  intro hp hmem
  rw [hh] at hmem
  exact h hp hmem

theorem pipeInv_of_proj {s s' : PgState}
    (hm : s'.measurements = s.measurements) (hh : s'.hops = s.hops)
    (hmc : s'.nextMeasurementId = s.nextMeasurementId)
    (hhc : s'.nextHopId = s.nextHopId)
    (h : PipeInv s) : PipeInv s' := by
  obtain ⟨⟨w1, w2, w3, w4, w5⟩, hA, hB, hC, hD⟩ := h
  refine ⟨⟨?_, ?_, ?_, ?_, ?_⟩, ?_, ?_, ?_, ?_⟩
  · rw [hm, hmc]; exact w1
  · rw [hm]; exact w2
  · rw [hh, hhc]; exact w3
  · rw [hh]; exact w4
  · rw [hh, hmc]; exact w5
  · rw [hm]
    intro m hmm he
    exact noUnenriched_of_hops_eq hh (hA m hmm he)
  · rw [hm]; exact hB
  · rw [hm]; exact hC
  · rw [hh, hm]; exact hD

theorem touchTargetOp_proj (s : PgState) (ip src : String) (τ : ℚ) :
    (touchTargetOp s ip src τ).measurements = s.measurements ∧
    (touchTargetOp s ip src τ).hops = s.hops ∧
    (touchTargetOp s ip src τ).nextMeasurementId = s.nextMeasurementId ∧
    (touchTargetOp s ip src τ).nextHopId = s.nextHopId := by
  unfold touchTargetOp
  cases s.targets.find? (fun t => t.target_ip = ip) <;> exact ⟨rfl, rfl, rfl, rfl⟩

theorem touchTargetDnsOp_proj (s : PgState) (ip src : String) (τ : ℚ) :
    (touchTargetDnsOp s ip src τ).measurements = s.measurements ∧
    (touchTargetDnsOp s ip src τ).hops = s.hops ∧
    (touchTargetDnsOp s ip src τ).nextMeasurementId = s.nextMeasurementId ∧
    (touchTargetDnsOp s ip src τ).nextHopId = s.nextHopId := by
  unfold touchTargetDnsOp
  cases s.targets.find? (fun t => t.target_ip = ip) <;> exact ⟨rfl, rfl, rfl, rfl⟩

theorem dbUpsertAsn_proj (st : PgState) (a : Nat) (p : AsnPatch) (now : ℚ) :
    (dbUpsertAsn st a p now).measurements = st.measurements ∧
    (dbUpsertAsn st a p now).hops = st.hops ∧
    (dbUpsertAsn st a p now).nextMeasurementId = st.nextMeasurementId ∧
    (dbUpsertAsn st a p now).nextHopId = st.nextHopId := by
  unfold dbUpsertAsn
  cases st.asns.find? (fun r => r.asn = a) <;> exact ⟨rfl, rfl, rfl, rfl⟩

theorem markEnrichedFn_fields (mid : Nat) (now : ℚ) (m : Measurement) :
    ((if m.id = mid then { m with enriched := true, enriched_at := some now } else m).id
        = m.id) ∧
    ((if m.id = mid then { m with enriched := true, enriched_at := some now } else m).success
        = m.success) ∧
    ((if m.id = mid then { m with enriched := true, enriched_at := some now } else m).graph_built
        = m.graph_built) := by
  by_cases h : m.id = mid <;> simp [h]

theorem markGraphBuiltFn_fields (mid : Nat) (now : ℚ) (m : Measurement) :
    ((if m.id = mid then { m with graph_built := true, graph_built_at := some now } else m).id
        = m.id) ∧
    ((if m.id = mid then { m with graph_built := true, graph_built_at := some now } else m).success
        = m.success) ∧
    ((if m.id = mid then { m with graph_built := true, graph_built_at := some now } else m).enriched
        = m.enriched) := by
  by_cases h : m.id = mid <;> simp [h]

theorem phase1_pipeInv {oracle : EnrichOracle} {s : PgState} {records : List Hop}
    (hI : PipeInv s)
    (hrec : ∀ r ∈ records, r ∈ s.hops ∧ r.hop_ip ≠ none ∧ r.asn = none ∧
      measurementSuccess s r.measurement_id = true) :
    PipeInv (records.foldl (applyHopUpdate oracle) s) := by
  obtain ⟨⟨w1, w2, w3, w4, w5⟩, hA, hB, hC, hD⟩ := hI
  rw [processHops_eq]
  have hmapids : (s.hops.map (chainUpdate oracle records)).map (fun h => h.id) =
      s.hops.map (fun h => h.id) := by
    rw [List.map_map]
    exact List.map_congr_left (fun h _ => (chainUpdate_fields oracle records h).1)
  refine ⟨⟨w1, w2, ?_, ?_, ?_⟩, ?_, ?_, ?_, ?_⟩
  · intro h hh
    obtain ⟨h0, hh0, rfl⟩ := List.mem_map.1 hh
    rw [(chainUpdate_fields oracle records h0).1]
    exact w3 h0 hh0
  · show ((s.hops.map (chainUpdate oracle records)).map (fun h => h.id)).Nodup
    rw [hmapids]
    exact w4
  · intro h hh
    obtain ⟨h0, hh0, rfl⟩ := List.mem_map.1 hh
    rw [(chainUpdate_fields oracle records h0).2.1]
    exact w5 h0 hh0
  · intro m hm he hp hmem hmid hasn
    obtain ⟨h0, hh0, rfl⟩ := List.mem_map.1 hmem
    rw [(chainUpdate_fields oracle records h0).2.2]
    rw [(chainUpdate_fields oracle records h0).2.1] at hmid
    by_cases htouch : ∃ r ∈ records, r.id = h0.id
    · obtain ⟨r, hr, hrid⟩ := htouch
      obtain ⟨hrs, hrip, hrasn, hrsucc⟩ := hrec r hr
      have hre : r = h0 := nodup_map_mem_inj w4 hrs hh0 hrid
      subst hre
      exact absurd (hA m hm he r hrs hmid hrasn) hrip
    · push_neg at htouch
      rw [chainUpdate_untouched oracle records h0 htouch] at hasn
      exact hA m hm he h0 hh0 hmid hasn
  · exact hB
  · exact hC
  · intro hp hmem m hm hmid hsucc
    obtain ⟨h0, hh0, rfl⟩ := List.mem_map.1 hmem
    rw [(chainUpdate_fields oracle records h0).2.1] at hmid
    by_cases htouch : ∃ r ∈ records, r.id = h0.id
    · obtain ⟨r, hr, hrid⟩ := htouch
      obtain ⟨hrs, hrip, hrasn, hrsucc⟩ := hrec r hr
      have hre : r = h0 := nodup_map_mem_inj w4 hrs hh0 hrid
      subst hre
      obtain ⟨m0, hm0, hm0id, hm0succ⟩ := measurementSuccess_true hrsucc
      have hmm : m = m0 := nodup_map_mem_inj w2 hm hm0 (hmid.trans hm0id.symm)
      rw [hmm, hm0succ] at hsucc
      cases hsucc
    · push_neg at htouch
      rw [chainUpdate_untouched oracle records h0 htouch]
      exact hD h0 hh0 m hm hmid hsucc

theorem markEnriched_pipeInv {st : PgState} {mid : Nat} {now : ℚ}
    (hI : PipeInv st) (hrem : remainingUnenrichedHops st mid = 0)
    (hsucc : ∀ m ∈ st.measurements, m.id = mid → m.success = true) :
    PipeInv (markMeasurementEnriched st mid now) := by
  obtain ⟨⟨w1, w2, w3, w4, w5⟩, hA, hB, hC, hD⟩ := hI
  have hnu : NoUnenriched st mid := (remaining_eq_zero_iff st mid).1 hrem
  unfold markMeasurementEnriched
  have hmapids : (st.measurements.map (fun m =>
      if m.id = mid then { m with enriched := true, enriched_at := some now } else m)).map
        (fun m => m.id) = st.measurements.map (fun m => m.id) := by
    rw [List.map_map]
    exact List.map_congr_left (fun m _ => (markEnrichedFn_fields mid now m).1)
  refine ⟨⟨?_, ?_, w3, w4, ?_⟩, ?_, ?_, ?_, ?_⟩
  · intro m hm
    obtain ⟨m0, hm0, rfl⟩ := List.mem_map.1 hm
    rw [(markEnrichedFn_fields mid now m0).1]
    exact w1 m0 hm0
  · show ((st.measurements.map (fun m =>
      if m.id = mid then { m with enriched := true, enriched_at := some now } else m)).map
        (fun m => m.id)).Nodup
    rw [hmapids]
    exact w2
  · exact w5
  · intro m hm he hp hmem hmid hasn
    obtain ⟨m0, hm0, rfl⟩ := List.mem_map.1 hm
    by_cases h0 : m0.id = mid
    · rw [if_pos h0] at hmid
      exact hnu hp hmem (hmid.trans h0) hasn
    · rw [if_neg h0] at he hmid
      exact hA m0 hm0 he hp hmem hmid hasn
  · intro m hm hgb
    obtain ⟨m0, hm0, rfl⟩ := List.mem_map.1 hm
    by_cases h0 : m0.id = mid
    · rw [if_pos h0]
    · rw [if_neg h0] at hgb ⊢
      exact hB m0 hm0 hgb
  · intro m hm hsf
    obtain ⟨m0, hm0, rfl⟩ := List.mem_map.1 hm
    rw [(markEnrichedFn_fields mid now m0).2.1] at hsf
    by_cases h0 : m0.id = mid
    · have := hsucc m0 hm0 h0
      rw [hsf] at this
      exact absurd this (by decide)
    · rw [if_neg h0]
      exact hC m0 hm0 hsf
  · intro hp hmem m hm hmid hsf
    obtain ⟨m0, hm0, rfl⟩ := List.mem_map.1 hm
    rw [(markEnrichedFn_fields mid now m0).1] at hmid
    rw [(markEnrichedFn_fields mid now m0).2.1] at hsf
    exact hD hp hmem m0 hm0 hmid hsf

theorem processBatch_pipeInv {oracle : EnrichOracle} {s : PgState} {records : List Hop}
    {now : ℚ}
    (hI : PipeInv s)
    (hrec : ∀ r ∈ records, r ∈ s.hops ∧ r.hop_ip ≠ none ∧ r.asn = none ∧
      measurementSuccess s r.measurement_id = true) :
    PipeInv (processBatch oracle s records now) := by
  have w2s : (s.measurements.map (fun m => m.id)).Nodup := hI.1.2.1
  have h1 : PipeInv (records.foldl (applyHopUpdate oracle) s) := phase1_pipeInv hI hrec
  have e1 : (records.foldl (applyHopUpdate oracle) s).measurements = s.measurements := by
    rw [processHops_eq]
  unfold processBatch
  dsimp only
  refine (foldl_preserve_mem
    (P := fun st => PipeInv st ∧ ∀ m' ∈ st.measurements,
      ∃ m0 ∈ s.measurements, m'.id = m0.id ∧ m'.success = m0.success)
    ((records.map (fun r => r.measurement_id)).dedup) ?_ _ ?_).1
  · intro st mid' hmid' hQ
    obtain ⟨hPst, hcorr⟩ := hQ
    by_cases hrem : remainingUnenrichedHops st mid' = 0
    · rw [if_pos hrem]
      have hsucc' : ∀ m ∈ st.measurements, m.id = mid' → m.success = true := by
        intro m hm hid
        have hmm : mid' ∈ records.map (fun r => r.measurement_id) := List.mem_dedup.1 hmid'
        obtain ⟨r, hr, hrid⟩ := List.mem_map.1 hmm
        obtain ⟨_, _, _, hrsucc⟩ := hrec r hr
        rw [hrid] at hrsucc
        obtain ⟨m1, hm1, hm1id, hm1succ⟩ := measurementSuccess_true hrsucc
        obtain ⟨m0, hm0, hm0id, hm0succ⟩ := hcorr m hm
        have hmeq : m0 = m1 :=
          nodup_map_mem_inj w2s hm0 hm1 ((hm0id.symm.trans hid).trans hm1id.symm)
        rw [hm0succ, hmeq, hm1succ]
      refine ⟨markEnriched_pipeInv hPst hrem hsucc', ?_⟩
      intro m' hm'
      obtain ⟨m0', hm0', rfl⟩ := List.mem_map.1 hm'
      obtain ⟨m0, hm0, hid, hsucc0⟩ := hcorr m0' hm0'
      exact ⟨m0, hm0, (markEnrichedFn_fields mid' now m0').1.trans hid,
        (markEnrichedFn_fields mid' now m0').2.1.trans hsucc0⟩
    · rw [if_neg hrem]
      exact ⟨hPst, hcorr⟩
  · refine foldl_preserve
      (P := fun st => PipeInv st ∧ ∀ m' ∈ st.measurements,
        ∃ m0 ∈ s.measurements, m'.id = m0.id ∧ m'.success = m0.success)
      ?_ (collectMetas oracle records) _ ⟨h1, ?_⟩
    · intro st e hQ
      obtain ⟨hPst, hcorr⟩ := hQ
      obtain ⟨p1, p2, p3, p4⟩ := dbUpsertAsn_proj st e.1 (metaToPatch e.2) now
      refine ⟨pipeInv_of_proj p1 p2 p3 p4 hPst, ?_⟩
      rw [p1]
      exact hcorr
    · intro m' hm'
      rw [e1] at hm'
      exact ⟨m', hm', rfl, rfl⟩

theorem enricherRunOnce_pipeInv (oracle : EnrichOracle) (s : PgState) (now : ℚ)
    (hI : PipeInv s) : PipeInv (enricherRunOnce oracle s now) := by
  unfold enricherRunOnce
  dsimp only
  by_cases hr : fetchUnenrichedHops s 200 = []
  · rw [if_pos hr]
    exact hI
  · rw [if_neg hr]
    exact processBatch_pipeInv hI (fun r hrr => fetchUnenrichedHops_mem hrr)

theorem markGraphBuilt_pipeInv {st : PgState} {mid : Nat} {now : ℚ}
    (hI : PipeInv st)
    (henr : ∀ m ∈ st.measurements, m.id = mid → m.enriched = true)
    (hsucc : ∀ m ∈ st.measurements, m.id = mid → m.success = true) :
    PipeInv (markMeasurementGraphBuilt st mid now) := by
  obtain ⟨⟨w1, w2, w3, w4, w5⟩, hA, hB, hC, hD⟩ := hI
  unfold markMeasurementGraphBuilt
  have hmapids : (st.measurements.map (fun m =>
      if m.id = mid then { m with graph_built := true, graph_built_at := some now } else m)).map
        (fun m => m.id) = st.measurements.map (fun m => m.id) := by
    rw [List.map_map]
    exact List.map_congr_left (fun m _ => (markGraphBuiltFn_fields mid now m).1)
  refine ⟨⟨?_, ?_, w3, w4, w5⟩, ?_, ?_, ?_, ?_⟩
  · intro m hm
    obtain ⟨m0, hm0, rfl⟩ := List.mem_map.1 hm
    rw [(markGraphBuiltFn_fields mid now m0).1]
    exact w1 m0 hm0
  · show ((st.measurements.map (fun m =>
      if m.id = mid then { m with graph_built := true, graph_built_at := some now } else m)).map
        (fun m => m.id)).Nodup
    rw [hmapids]
    exact w2
  · intro m hm he hp hmem hmid hasn
    obtain ⟨m0, hm0, rfl⟩ := List.mem_map.1 hm
    rw [(markGraphBuiltFn_fields mid now m0).2.2] at he
    rw [(markGraphBuiltFn_fields mid now m0).1] at hmid
    exact hA m0 hm0 he hp hmem hmid hasn
  · intro m hm hgb
    obtain ⟨m0, hm0, rfl⟩ := List.mem_map.1 hm
    rw [(markGraphBuiltFn_fields mid now m0).2.2]
    by_cases h0 : m0.id = mid
    · exact henr m0 hm0 h0
    · rw [if_neg h0] at hgb
      exact hB m0 hm0 hgb
  · intro m hm hsf
    obtain ⟨m0, hm0, rfl⟩ := List.mem_map.1 hm
    rw [(markGraphBuiltFn_fields mid now m0).2.1] at hsf
    by_cases h0 : m0.id = mid
    · have := hsucc m0 hm0 h0
      rw [hsf] at this
      exact absurd this (by decide)
    · rw [if_neg h0]
      exact hC m0 hm0 hsf
  · intro hp hmem m hm hmid hsf
    obtain ⟨m0, hm0, rfl⟩ := List.mem_map.1 hm
    rw [(markGraphBuiltFn_fields mid now m0).1] at hmid
    rw [(markGraphBuiltFn_fields mid now m0).2.1] at hsf
    exact hD hp hmem m0 hm0 hmid hsf

theorem graphOp_measurements (st : PgState) (mid : Nat) (obs now : ℚ) :
    (graphProcessMeasurementOp st mid obs now).measurements =
      st.measurements.map (fun m =>
        if m.id = mid then { m with graph_built := true, graph_built_at := some now }
        else m) := rfl

theorem graphOp_pipeInv {st : PgState} {mid : Nat} {obs now : ℚ}
    (hI : PipeInv st)
    (henr : ∀ m ∈ st.measurements, m.id = mid → m.enriched = true)
    (hsucc : ∀ m ∈ st.measurements, m.id = mid → m.success = true) :
    PipeInv (graphProcessMeasurementOp st mid obs now) := by
  unfold graphProcessMeasurementOp
  dsimp only
  apply markGraphBuilt_pipeInv
  · exact pipeInv_of_proj rfl rfl rfl rfl hI
  · exact henr
  · exact hsucc

theorem graphRunOnce_pipeInv (s : PgState) (now : ℚ) (hI : PipeInv s) :
    PipeInv (graphRunOnce s now) := by
  have w2s : (s.measurements.map (fun m => m.id)).Nodup := hI.1.2.1
  have hCs := hI.2.2.2.1
  unfold graphRunOnce
  refine (foldl_preserve_mem
    (P := fun st => PipeInv st ∧ ∀ m' ∈ st.measurements,
      ∃ m0 ∈ s.measurements, m'.id = m0.id ∧ m'.success = m0.success ∧
        m'.enriched = m0.enriched)
    (fetchMeasurementsForGraph s 50) ?_ s ⟨hI, fun m' hm' => ⟨m', hm', rfl, rfl, rfl⟩⟩).1
  intro st row hrow hQ
  obtain ⟨hPst, hcorr⟩ := hQ
  obtain ⟨hrowmem, hrowenr, hrowgb⟩ := fetchMeasurementsForGraph_mem hrow
  have hrowsucc : row.success = true := by
    cases hb : row.success
    · have := (hCs row hrowmem hb).1
      rw [hrowenr] at this
      exact absurd this (by decide)
    · rfl
  have henr : ∀ m ∈ st.measurements, m.id = row.id → m.enriched = true := by
    intro m hm hid
    obtain ⟨m0, hm0, hid0, hsucc0, henr0⟩ := hcorr m hm
    have hm0row : m0 = row := nodup_map_mem_inj w2s hm0 hrowmem (hid0.symm.trans hid)
    rw [henr0, hm0row]
    exact hrowenr
  have hsucc : ∀ m ∈ st.measurements, m.id = row.id → m.success = true := by
    intro m hm hid
    obtain ⟨m0, hm0, hid0, hsucc0, henr0⟩ := hcorr m hm
    have hm0row : m0 = row := nodup_map_mem_inj w2s hm0 hrowmem (hid0.symm.trans hid)
    rw [hsucc0, hm0row]
    exact hrowsucc
  refine ⟨graphOp_pipeInv hPst henr hsucc, ?_⟩
  intro m' hm'
  rw [graphOp_measurements] at hm'
  obtain ⟨m0', hm0', rfl⟩ := List.mem_map.1 hm'
  obtain ⟨m0, hm0, hid, hsucc0, henr0⟩ := hcorr m0' hm0'
  exact ⟨m0, hm0, (markGraphBuiltFn_fields row.id now m0').1.trans hid,
    (markGraphBuiltFn_fields row.id now m0').2.1.trans hsucc0,
    (markGraphBuiltFn_fields row.id now m0').2.2.trans henr0⟩

theorem insertHopsFold_measurements (mid : Nat)
    (payload : List (Nat × Option String × Option ℚ)) :
    ∀ st : PgState, (payload.foldl (insertHopRow mid) st).measurements = st.measurements := by
  induction payload with
  | nil => intro st; rfl
  | cons hp ps ih =>
    intro st
    simp only [List.foldl_cons]
    exact (ih (insertHopRow mid st hp)).trans rfl

theorem insertHopsFold_targets (mid : Nat)
    (payload : List (Nat × Option String × Option ℚ)) :
    ∀ st : PgState, (payload.foldl (insertHopRow mid) st).targets = st.targets := by
  induction payload with
  | nil => intro st; rfl
  | cons hp ps ih =>
    intro st
    simp only [List.foldl_cons]
    exact (ih (insertHopRow mid st hp)).trans rfl

theorem insertHopsFold_nextMeasurementId (mid : Nat)
    (payload : List (Nat × Option String × Option ℚ)) :
    ∀ st : PgState,
      (payload.foldl (insertHopRow mid) st).nextMeasurementId = st.nextMeasurementId := by
  induction payload with
  | nil => intro st; rfl
  | cons hp ps ih =>
    intro st
    simp only [List.foldl_cons]
    exact (ih (insertHopRow mid st hp)).trans rfl

theorem insertHopsFold_mem (mid : Nat) (payload : List (Nat × Option String × Option ℚ)) :
    ∀ st : PgState, ∀ h ∈ (payload.foldl (insertHopRow mid) st).hops,
      h ∈ st.hops ∨ (h.measurement_id = mid ∧ h.asn = none) := by
  induction payload with
  | nil => intro st h hh; exact Or.inl hh
  | cons hp ps ih =>
    intro st h hh
    simp only [List.foldl_cons] at hh
    rcases ih (insertHopRow mid st hp) h hh with hin | hnew
    · rcases List.mem_append.1 hin with h1 | h2
      · exact Or.inl h1
      · rw [List.mem_singleton] at h2
        subst h2
        exact Or.inr ⟨rfl, rfl⟩
    · exact Or.inr hnew

theorem insertHopsFold_wf (mid : Nat) (payload : List (Nat × Option String × Option ℚ)) :
    ∀ st : PgState,
      (∀ h ∈ st.hops, h.id < st.nextHopId) →
      (st.hops.map (fun h => h.id)).Nodup →
      (∀ h ∈ st.hops, h.measurement_id < st.nextMeasurementId) →
      mid < st.nextMeasurementId →
      (∀ h ∈ (payload.foldl (insertHopRow mid) st).hops,
         h.id < (payload.foldl (insertHopRow mid) st).nextHopId) ∧
      (((payload.foldl (insertHopRow mid) st).hops.map (fun h => h.id)).Nodup) ∧
      (∀ h ∈ (payload.foldl (insertHopRow mid) st).hops,
         h.measurement_id < (payload.foldl (insertHopRow mid) st).nextMeasurementId) := by
  induction payload with
  | nil => intro st h1 h2 h3 _; exact ⟨h1, h2, h3⟩
  | cons hp ps ih =>
    intro st h1 h2 h3 hmid
    simp only [List.foldl_cons]
    apply ih
    · intro h hh
      rcases List.mem_append.1 hh with ha | hb
      · exact Nat.lt_succ_of_lt (h1 h ha)
      · rw [List.mem_singleton] at hb
        subst hb
        exact Nat.lt_succ_self _
    · unfold insertHopRow
      dsimp only
      rw [List.map_append, List.nodup_append]
      refine ⟨h2, by simp, ?_⟩
      intro a ha hb
      simp only [List.map_cons, List.map_nil, List.mem_singleton] at hb
      subst hb
      obtain ⟨h0, hh0, hid⟩ := List.mem_map.1 ha
      exact absurd (hid ▸ h1 h0 hh0) (lt_irrefl _)
    · intro h hh
      rcases List.mem_append.1 hh with ha | hb
      · exact h3 h ha
      · rw [List.mem_singleton] at hb
        subst hb
        exact hmid
    · exact hmid

theorem insertOp_measurements (s : PgState) (tip : String) (sa : ℚ) (ca : Option ℚ)
    (su : Bool) (payload : List (Nat × Option String × Option ℚ)) (src : Option String) :
    (insertMeasurementOp s tip sa ca su payload src).2.measurements =
      s.measurements ++
        [{ id := s.nextMeasurementId, target_id := (getOrCreateTarget s tip src).1,
           started_at := sa, completed_at := ca, success := su, enriched := false,
           graph_built := false, enriched_at := none, graph_built_at := none }] := by
  obtain ⟨g1, g2, g3, g4⟩ := getOrCreateTarget_proj s tip src
  unfold insertMeasurementOp
  dsimp only
  rw [insertHopsFold_measurements]
  dsimp only
  rw [g1, g3]

theorem insertOp_nextMeasurementId (s : PgState) (tip : String) (sa : ℚ) (ca : Option ℚ)
    (su : Bool) (payload : List (Nat × Option String × Option ℚ)) (src : Option String) :
    (insertMeasurementOp s tip sa ca su payload src).2.nextMeasurementId =
      s.nextMeasurementId + 1 := by
  obtain ⟨g1, g2, g3, g4⟩ := getOrCreateTarget_proj s tip src
  unfold insertMeasurementOp
  dsimp only
  rw [insertHopsFold_nextMeasurementId]
  dsimp only
  rw [g3]

theorem insertOp_hops_mem (s : PgState) (tip : String) (sa : ℚ) (ca : Option ℚ)
    (su : Bool) (payload : List (Nat × Option String × Option ℚ)) (src : Option String) :
    ∀ h ∈ (insertMeasurementOp s tip sa ca su payload src).2.hops,
      h ∈ s.hops ∨ (h.measurement_id = s.nextMeasurementId ∧ h.asn = none) := by
  obtain ⟨g1, g2, g3, g4⟩ := getOrCreateTarget_proj s tip src
  intro h hh
  unfold insertMeasurementOp at hh
  dsimp only at hh
  rcases insertHopsFold_mem _ payload _ h hh with h1 | h2
  · dsimp only at h1
    rw [g2] at h1
    exact Or.inl h1
  · rw [g3] at h2
    exact Or.inr h2

theorem insertOp_hops_wf (s : PgState) (tip : String) (sa : ℚ) (ca : Option ℚ)
    (su : Bool) (payload : List (Nat × Option String × Option ℚ)) (src : Option String)
    (w3 : ∀ h ∈ s.hops, h.id < s.nextHopId)
    (w4 : (s.hops.map (fun h => h.id)).Nodup)
    (w5 : ∀ h ∈ s.hops, h.measurement_id < s.nextMeasurementId) :
    (∀ h ∈ (insertMeasurementOp s tip sa ca su payload src).2.hops,
       h.id < (insertMeasurementOp s tip sa ca su payload src).2.nextHopId) ∧
    (((insertMeasurementOp s tip sa ca su payload src).2.hops.map (fun h => h.id)).Nodup) ∧
    (∀ h ∈ (insertMeasurementOp s tip sa ca su payload src).2.hops,
       h.measurement_id <
         (insertMeasurementOp s tip sa ca su payload src).2.nextMeasurementId) := by
  obtain ⟨g1, g2, g3, g4⟩ := getOrCreateTarget_proj s tip src
  unfold insertMeasurementOp
  dsimp only
  apply insertHopsFold_wf
  · dsimp only
    rw [g2, g4]
    exact w3
  · dsimp only
    rw [g2]
    exact w4
  · dsimp only
    rw [g2, g3]
    exact fun h hh => Nat.lt_succ_of_lt (w5 h hh)
  · exact Nat.lt_succ_self _

theorem insertOp_pipeInv {s : PgState} {tip : String} {sa : ℚ} {ca : Option ℚ}
    {su : Bool} {payload : List (Nat × Option String × Option ℚ)} {src : Option String}
    (hI : PipeInv s) :
    PipeInv (insertMeasurementOp s tip sa ca su payload src).2 := by
  obtain ⟨⟨w1, w2, w3, w4, w5⟩, hA, hB, hC, hD⟩ := hI
  have hm := insertOp_measurements s tip sa ca su payload src
  have hc := insertOp_nextMeasurementId s tip sa ca su payload src
  have hhops := insertOp_hops_mem s tip sa ca su payload src
  obtain ⟨u1, u2, u3⟩ := insertOp_hops_wf s tip sa ca su payload src w3 w4 w5
  refine ⟨⟨?_, ?_, u1, u2, u3⟩, ?_, ?_, ?_, ?_⟩
  · rw [hm, hc]
    intro m hmm
    rcases List.mem_append.1 hmm with h1 | h2
    · exact Nat.lt_succ_of_lt (w1 m h1)
    · rw [List.mem_singleton] at h2
      subst h2
      exact Nat.lt_succ_self _
  · rw [hm, List.map_append, List.nodup_append]
    refine ⟨w2, by simp, ?_⟩
    intro a ha hb
    simp only [List.map_cons, List.map_nil, List.mem_singleton] at hb
    subst hb
    obtain ⟨m0, hm0, hid⟩ := List.mem_map.1 ha
    exact absurd (hid ▸ w1 m0 hm0) (lt_irrefl _)
  · rw [hm]
    intro m hmm he hp hmem hmid hasn
    rcases List.mem_append.1 hmm with h1 | h2
    · rcases hhops hp hmem with hold | hnew
      · exact hA m h1 he hp hold hmid hasn
      · exfalso
        have hlt := w1 m h1
        rw [← hmid, hnew.1] at hlt
        exact lt_irrefl _ hlt
    · rw [List.mem_singleton] at h2
      subst h2
      simp at he
  · rw [hm]
    intro m hmm hgb
    rcases List.mem_append.1 hmm with h1 | h2
    · exact hB m h1 hgb
    · rw [List.mem_singleton] at h2
      subst h2
      simp at hgb
  · rw [hm]
    intro m hmm hsf
    rcases List.mem_append.1 hmm with h1 | h2
    · exact hC m h1 hsf
    · rw [List.mem_singleton] at h2
      subst h2
      exact ⟨rfl, rfl⟩
  · rw [hm]
    intro hp hmem m hmm hmid hsf
    rcases hhops hp hmem with hold | hnew
    · rcases List.mem_append.1 hmm with h1 | h2
      · exact hD hp hold m h1 hmid hsf
      · rw [List.mem_singleton] at h2
        subst h2
        exfalso
        have hlt := w5 hp hold
        rw [← hmid] at hlt
        exact lt_irrefl _ hlt
    · exact hnew.2

theorem pipeInv_step {s s' : PgState} (hI : PipeInv s) (hstep : PgStep s s') :
    PipeInv s' := by
  cases hstep with
  | insertMeasurement tip sa ca su payload src => exact insertOp_pipeInv hI
  | touch tip src τ =>
    obtain ⟨p1, p2, p3, p4⟩ := touchTargetOp_proj s tip src τ
    exact pipeInv_of_proj p1 p2 p3 p4 hI
  | touchDns tip src τ =>
    obtain ⟨p1, p2, p3, p4⟩ := touchTargetDnsOp_proj s tip src τ
    exact pipeInv_of_proj p1 p2 p3 p4 hI
  | enrich oracle now => exact enricherRunOnce_pipeInv oracle s now hI
  | graph now => exact graphRunOnce_pipeInv s now hI

theorem pipeInv_init : PipeInv initState := by
  refine ⟨⟨?_, ?_, ?_, ?_, ?_⟩, ?_, ?_, ?_, ?_⟩ <;>
    first
      | exact List.nodup_nil
      | intro x hx
        exact absurd hx (List.not_mem_nil x)

theorem pipeInv_reachable {s : PgState} (h : PgReachable s) : PipeInv s := by
  induction h with
  | init => exact pipeInv_init
  | step s s' _ hstep ih => exact pipeInv_step ih hstep

/-- C1, counterexample to the `⇐` direction of the claimed equivalence: in
the reachable state `allStarState` the lone measurement (a success whose only
hop is a `* * *` row with a null IP) has `remaining_unenriched_hops = 0` yet
`enriched = false`, and an enricher run — whether the lookups answer or
raise — leaves the state unchanged, because `fetch_unenriched_hops` requires
a non-null `hop_ip`; so the measurement never becomes enriched. -/
theorem claim_C1_enrichment_counterexample :
    PgReachable allStarState ∧
    (∃ m ∈ allStarState.measurements,
      remainingUnenrichedHops allStarState m.id = 0 ∧ m.enriched = false) ∧
    enricherRunOnce exOracle allStarState 5 = allStarState ∧
    enricherRunOnce failOracle allStarState 5 = allStarState := by
  refine ⟨PgReachable.step _ _ PgReachable.init
    (PgStep.insertMeasurement initState "1.1.1.1" 0 (some 1) true [(1, none, none)]
      (some "api")), ?_, ?_, ?_⟩
  · decide
  · decide
  · decide

/-- C1 (amended): in every reachable pipeline state, an enriched measurement
has `remaining_unenriched_hops = 0`, and `graph_built = true` implies
`enriched = true`.  (The claimed converse fails: a measurement whose
remaining count is zero only because its unenriched hops lack an IP is never
marked enriched; see the counterexample.) -/
theorem claim_C1_enrichment_invariant {s : PgState} (h : PgReachable s) :
    ∀ m ∈ s.measurements,
      (m.enriched = true → remainingUnenrichedHops s m.id = 0) ∧
      (m.graph_built = true → m.enriched = true) := by
  obtain ⟨_, hA, hB, _, _⟩ := pipeInv_reachable h
  intro m hm
  exact ⟨fun he => (remaining_eq_zero_iff s m.id).2 (hA m hm he), hB m hm⟩

theorem claim_C1_enrichment_invariant_witness :
    PgReachable builtState ∧
    ∀ m ∈ builtState.measurements,
      (m.enriched = true → remainingUnenrichedHops builtState m.id = 0) ∧
      (m.graph_built = true → m.enriched = true) := by
  have hreach : PgReachable builtState :=
    PgReachable.step _ _
      (PgReachable.step _ _
        (PgReachable.step _ _ PgReachable.init
          (PgStep.insertMeasurement initState "1.1.1.1" 0 (some 1) true
            [(1, some "10.0.0.1", some 1), (2, some "1.1.1.1", some 5)] (some "api")))
        (PgStep.enrich twoHopState exOracle 7))
      (PgStep.graph enrichedState 9)
  exact ⟨hreach, claim_C1_enrichment_invariant hreach⟩

/-- C10: the enrichment query only returns hops with a non-null IP, a null
ASN and a successful parent measurement, and in every reachable pipeline
state a failed measurement is neither enriched nor graph-built and its hops
keep a null ASN. -/
theorem claim_C10_failed_excluded {s : PgState} (h : PgReachable s) :
    (∀ limit : Nat, ∀ r ∈ fetchUnenrichedHops s limit,
       r.hop_ip ≠ none ∧ r.asn = none ∧ measurementSuccess s r.measurement_id = true) ∧
    (∀ m ∈ s.measurements, m.success = false →
       m.enriched = false ∧ m.graph_built = false) ∧
    (∀ hp ∈ s.hops, ∀ m ∈ s.measurements, m.id = hp.measurement_id →
       m.success = false → hp.asn = none) := by
  obtain ⟨_, _, _, hC, hD⟩ := pipeInv_reachable h
  exact ⟨fun limit r hr => (fetchUnenrichedHops_mem hr).2, hC, hD⟩

theorem claim_C10_failed_excluded_witness :
    PgReachable failedState ∧
    ((∀ limit : Nat, ∀ r ∈ fetchUnenrichedHops failedState limit,
        r.hop_ip ≠ none ∧ r.asn = none ∧
          measurementSuccess failedState r.measurement_id = true) ∧
     (∀ m ∈ failedState.measurements, m.success = false →
        m.enriched = false ∧ m.graph_built = false) ∧
     (∀ hp ∈ failedState.hops, ∀ m ∈ failedState.measurements,
        m.id = hp.measurement_id → m.success = false → hp.asn = none)) := by
  have hreach : PgReachable failedState :=
    PgReachable.step _ _ PgReachable.init
      (PgStep.insertMeasurement initState "5.5.5.5" 2 (some 3) false
        [(1, some "10.0.0.7", some 2)] (some "dns"))
  exact ⟨hreach, claim_C10_failed_excluded hreach⟩

theorem find?_map_ip {l : List Target} {g : Target → Target} {tip : String}
    (hg : ∀ t, (g t).target_ip = t.target_ip) :
    (l.map g).find? (fun t => t.target_ip = tip) =
      (l.find? (fun t => t.target_ip = tip)).map g := by
  rw [List.find?_map]
  have e : ((fun t => decide (t.target_ip = tip)) ∘ g) =
      (fun t : Target => decide (t.target_ip = tip)) := by
    funext t
    simp [Function.comp, hg t]
  rw [e]

theorem dbUpsertAsn_targets (st : PgState) (a : Nat) (p : AsnPatch) (now : ℚ) :
    (dbUpsertAsn st a p now).targets = st.targets := by
  unfold dbUpsertAsn
  cases st.asns.find? (fun r => r.asn = a) <;> rfl

theorem processBatch_targets (oracle : EnrichOracle) (s : PgState) (records : List Hop)
    (now : ℚ) : (processBatch oracle s records now).targets = s.targets := by
  unfold processBatch
  dsimp only
  refine foldl_preserve (P := fun st : PgState => st.targets = s.targets) ?_ _ _ ?_
  · intro st mid h
    by_cases hrem : remainingUnenrichedHops st mid = 0
    · rw [if_pos hrem]
      exact h
    · rw [if_neg hrem]
      exact h
  · refine foldl_preserve (P := fun st : PgState => st.targets = s.targets) ?_ _ _ ?_
    · intro st e h
      rw [dbUpsertAsn_targets]
      exact h
    · rw [processHops_eq]

theorem enricherRunOnce_targets (oracle : EnrichOracle) (s : PgState) (now : ℚ) :
    (enricherRunOnce oracle s now).targets = s.targets := by
  unfold enricherRunOnce
  dsimp only
  by_cases hr : fetchUnenrichedHops s 200 = []
  · rw [if_pos hr]
  · rw [if_neg hr]
    exact processBatch_targets oracle s _ now

theorem graphRunOnce_targets (s : PgState) (now : ℚ) :
    (graphRunOnce s now).targets = s.targets := by
  unfold graphRunOnce
  refine foldl_preserve (P := fun st : PgState => st.targets = s.targets) ?_ _ _ rfl
  intro st row h
  exact h

theorem touchTargetOp_targets_ip (s : PgState) (tip src : String) (τ : ℚ) (ip : String)
    (h : ∃ t ∈ s.targets, t.target_ip = ip) :
    ∃ t ∈ (touchTargetOp s tip src τ).targets, t.target_ip = ip := by
  unfold touchTargetOp
  cases hf : s.targets.find? (fun t => t.target_ip = tip) with
  | some t0 =>
    obtain ⟨t, ht, hip⟩ := h
    refine ⟨_, List.mem_map_of_mem _ ht, ?_⟩
    dsimp only
    by_cases hh : t.target_ip = tip
    · rw [if_pos hh]
      exact hip
    · rw [if_neg hh]
      exact hip
  | none =>
    obtain ⟨t, ht, hip⟩ := h
    exact ⟨t, List.mem_append.2 (Or.inl ht), hip⟩

theorem touchTargetDnsOp_targets_ip (s : PgState) (tip src : String) (τ : ℚ) (ip : String)
    (h : ∃ t ∈ s.targets, t.target_ip = ip) :
    ∃ t ∈ (touchTargetDnsOp s tip src τ).targets, t.target_ip = ip := by
  unfold touchTargetDnsOp
  cases hf : s.targets.find? (fun t => t.target_ip = tip) with
  | some t0 =>
    obtain ⟨t, ht, hip⟩ := h
    refine ⟨_, List.mem_map_of_mem _ ht, ?_⟩
    dsimp only
    by_cases hh : t.target_ip = tip
    · rw [if_pos hh]
      exact hip
    · rw [if_neg hh]
      exact hip
  | none =>
    obtain ⟨t, ht, hip⟩ := h
    exact ⟨t, List.mem_append.2 (Or.inl ht), hip⟩

theorem insertOp_targets_ip (s : PgState) (tip : String) (sa : ℚ) (ca : Option ℚ)
    (su : Bool) (payload : List (Nat × Option String × Option ℚ)) (src : Option String)
    (ip : String) (h : ∃ t ∈ s.targets, t.target_ip = ip) :
    ∃ t ∈ (insertMeasurementOp s tip sa ca su payload src).2.targets,
      t.target_ip = ip := by
  unfold insertMeasurementOp
  dsimp only
  rw [insertHopsFold_targets]
  dsimp only
  have h1 : ∃ t ∈ (getOrCreateTarget s tip src).2.targets, t.target_ip = ip := by
    unfold getOrCreateTarget
    cases s.targets.find? (fun t => t.target_ip = tip) with
    | some t0 => exact h
    | none =>
      obtain ⟨t, ht, hip⟩ := h
      exact ⟨t, List.mem_append.2 (Or.inl ht), hip⟩
  obtain ⟨t, ht, hip⟩ := h1
  refine ⟨_, List.mem_map_of_mem _ ht, ?_⟩
  by_cases hh : t.id = (getOrCreateTarget s tip src).1 <;> simp [hh, hip]

theorem touchTargetOp_lastSeen (s : PgState) (tip src : String) (τ : ℚ)
    (h : optTimeLe (lastSeenOf s tip) (some τ)) :
    optTimeLe (lastSeenOf s tip) (lastSeenOf (touchTargetOp s tip src τ) tip) := by
  unfold touchTargetOp
  cases hf : s.targets.find? (fun t => t.target_ip = tip) with
  | none =>
    have e : lastSeenOf s tip = none := by
      unfold lastSeenOf
      rw [hf]
      rfl
    rw [e]
    trivial
  | some t =>
    have hp : t.target_ip = tip := by
      have := List.find?_some hf
      simpa using this
    have hg : ∀ t' : Target,
        ((fun t' => if t'.target_ip = tip then { t' with last_seen := some τ } else t')
          t').target_ip = t'.target_ip := by
      intro t'
      by_cases hh : t'.target_ip = tip <;> simp [hh]
    unfold lastSeenOf at h ⊢
    rw [hf] at h
    dsimp only
    rw [find?_map_ip hg, hf]
    dsimp only [Option.map, Option.bind]
    rw [if_pos hp]
    exact h

theorem touchTargetDnsOp_lastSeen (s : PgState) (tip src : String) (τ : ℚ)
    (h : optTimeLe (lastSeenOf s tip) (some τ)) :
    optTimeLe (lastSeenOf s tip) (lastSeenOf (touchTargetDnsOp s tip src τ) tip) := by
  unfold touchTargetDnsOp
  cases hf : s.targets.find? (fun t => t.target_ip = tip) with
  | none =>
    have e : lastSeenOf s tip = none := by
      unfold lastSeenOf
      rw [hf]
      rfl
    rw [e]
    trivial
  | some t =>
    have hp : t.target_ip = tip := by
      have := List.find?_some hf
      simpa using this
    have hg : ∀ t' : Target,
        ((fun t' => if t'.target_ip = tip then
            { t' with last_seen := some τ, source := t'.source.orElse (fun _ => some src) }
          else t') t').target_ip = t'.target_ip := by
      intro t'
      by_cases hh : t'.target_ip = tip <;> simp [hh]
    unfold lastSeenOf at h ⊢
    rw [hf] at h
    dsimp only
    rw [find?_map_ip hg, hf]
    dsimp only [Option.map, Option.bind]
    rw [if_pos hp]
    exact h

theorem insertOp_lastSeen (s : PgState) (tip : String) (sa : ℚ) (ca : Option ℚ)
    (su : Bool) (payload : List (Nat × Option String × Option ℚ)) (src : Option String)
    (h : optTimeLe (lastSeenOf s tip) (some (ca.getD sa))) :
    optTimeLe (lastSeenOf s tip)
      (lastSeenOf (insertMeasurementOp s tip sa ca su payload src).2 tip) := by
  cases hf : s.targets.find? (fun t => t.target_ip = tip) with
  | none =>
    have e : lastSeenOf s tip = none := by
      unfold lastSeenOf
      rw [hf]
      rfl
    rw [e]
    trivial
  | some t =>
    have hg : ∀ t' : Target,
        ((fun t' => if t'.id = t.id then { t' with last_seen := some (ca.getD sa) } else t')
          t').target_ip = t'.target_ip := by
      intro t'
      by_cases hh : t'.id = t.id <;> simp [hh]
    unfold insertMeasurementOp getOrCreateTarget
    dsimp only
    rw [hf]
    dsimp only
    unfold lastSeenOf at h ⊢
    rw [hf] at h
    dsimp only
    rw [insertHopsFold_targets]
    dsimp only
    rw [find?_map_ip hg, hf]
    dsimp only [Option.map, Option.bind]
    rw [if_pos rfl]
    exact h

theorem step_targets_ip {s s' : PgState} (hstep : PgStep s s') (ip : String)
    (h : ∃ t ∈ s.targets, t.target_ip = ip) : ∃ t ∈ s'.targets, t.target_ip = ip := by
  cases hstep with
  | insertMeasurement tip sa ca su payload src =>
    exact insertOp_targets_ip s tip sa ca su payload src ip h
  | touch tip src τ => exact touchTargetOp_targets_ip s tip src τ ip h
  | touchDns tip src τ => exact touchTargetDnsOp_targets_ip s tip src τ ip h
  | enrich oracle now =>
    rw [enricherRunOnce_targets]
    exact h
  | graph now =>
    rw [graphRunOnce_targets]
    exact h

/-- C9 (amended): no pipeline operation deletes a target row once created,
and each operation that writes `last_seen` (the touch helpers used by DNS
collection, remeasurement and ASN expansion, and `insert_measurement`)
leaves it non-decreasing whenever the timestamp it supplies is not older
than the stored one.  (The unconditional monotonicity claim fails: the SQL
writes are plain assignments, so a call carrying an older timestamp lowers
`last_seen`; see the counterexample.) -/
theorem claim_C9_target_persistence {s s' : PgState} (hstep : PgStep s s') (ip : String) :
    ((∃ t ∈ s.targets, t.target_ip = ip) → ∃ t ∈ s'.targets, t.target_ip = ip) ∧
    (∀ src τ, optTimeLe (lastSeenOf s ip) (some τ) →
      optTimeLe (lastSeenOf s ip) (lastSeenOf (touchTargetOp s ip src τ) ip) ∧
      optTimeLe (lastSeenOf s ip) (lastSeenOf (touchTargetDnsOp s ip src τ) ip)) ∧
    (∀ sa ca su payload src,
      optTimeLe (lastSeenOf s ip) (some (Option.getD ca sa)) →
      optTimeLe (lastSeenOf s ip)
        (lastSeenOf (insertMeasurementOp s ip sa ca su payload src).2 ip)) := by
  refine ⟨step_targets_ip hstep ip, ?_, ?_⟩
  · intro src τ hle
    exact ⟨touchTargetOp_lastSeen s ip src τ hle, touchTargetDnsOp_lastSeen s ip src τ hle⟩
  · intro sa ca su payload src hle
    exact insertOp_lastSeen s ip sa ca su payload src hle

theorem claim_C9_target_persistence_witness :
    PgStep (touchTargetOp initState "8.8.8.8" "dns" 10)
      (touchTargetOp (touchTargetOp initState "8.8.8.8" "dns" 10) "8.8.8.8" "dns" 20) ∧
    (((∃ t ∈ (touchTargetOp initState "8.8.8.8" "dns" 10).targets, t.target_ip = "8.8.8.8") →
        ∃ t ∈ (touchTargetOp (touchTargetOp initState "8.8.8.8" "dns" 10)
          "8.8.8.8" "dns" 20).targets, t.target_ip = "8.8.8.8") ∧
     (∀ src τ,
        optTimeLe (lastSeenOf (touchTargetOp initState "8.8.8.8" "dns" 10) "8.8.8.8")
          (some τ) →
        optTimeLe (lastSeenOf (touchTargetOp initState "8.8.8.8" "dns" 10) "8.8.8.8")
          (lastSeenOf (touchTargetOp (touchTargetOp initState "8.8.8.8" "dns" 10)
            "8.8.8.8" src τ) "8.8.8.8") ∧
        optTimeLe (lastSeenOf (touchTargetOp initState "8.8.8.8" "dns" 10) "8.8.8.8")
          (lastSeenOf (touchTargetDnsOp (touchTargetOp initState "8.8.8.8" "dns" 10)
            "8.8.8.8" src τ) "8.8.8.8")) ∧
     (∀ sa ca su payload src,
        optTimeLe (lastSeenOf (touchTargetOp initState "8.8.8.8" "dns" 10) "8.8.8.8")
          (some (Option.getD ca sa)) →
        optTimeLe (lastSeenOf (touchTargetOp initState "8.8.8.8" "dns" 10) "8.8.8.8")
          (lastSeenOf (insertMeasurementOp (touchTargetOp initState "8.8.8.8" "dns" 10)
            "8.8.8.8" sa ca su payload src).2 "8.8.8.8"))) := by
  have hstep : PgStep (touchTargetOp initState "8.8.8.8" "dns" 10)
      (touchTargetOp (touchTargetOp initState "8.8.8.8" "dns" 10) "8.8.8.8" "dns" 20) :=
    PgStep.touch _ "8.8.8.8" "dns" 20
  exact ⟨hstep, claim_C9_target_persistence hstep "8.8.8.8"⟩

/-- C9, counterexample to unconditional monotonicity: `touch_target` writes
`last_seen` by plain assignment, so touching the same target first with
timestamp 100 and then with timestamp 50 — a legal pipeline step — lowers
`last_seen` from 100 to 50. -/
theorem claim_C9_monotonicity_counterexample :
    PgStep (touchTargetOp initState "9.9.9.9" "dns" 100)
      (touchTargetOp (touchTargetOp initState "9.9.9.9" "dns" 100) "9.9.9.9" "dns" 50) ∧
    lastSeenOf (touchTargetOp initState "9.9.9.9" "dns" 100) "9.9.9.9" = some 100 ∧
    lastSeenOf (touchTargetOp (touchTargetOp initState "9.9.9.9" "dns" 100)
      "9.9.9.9" "dns" 50) "9.9.9.9" = some 50 ∧
    ¬ optTimeLe (some (100 : ℚ)) (some (50 : ℚ)) := by
  refine ⟨PgStep.touch _ "9.9.9.9" "dns" 50, ?_, ?_, ?_⟩
  · decide
  · decide
  · show ¬ ((100 : ℚ) ≤ 50)
    decide
